import Mathlib

/-!
Resource pool (lib/resourcepool/impl.go).

A shallow embedding of the bounded resource pool of `lib/resourcepool/impl.go`
and the properties of its bookkeeping.

Modelling conventions.

* A `*Resource` pointer is a `ResId`; the heap of resources is the function
  `Pool.resources`.  Every identity starts in the state that `create` builds.
* A channel used as a semaphore is represented by the number of items it
  holds (`len(ch)`); its capacity is `1` for the checkout gate of a resource
  and `max` for the pool.
* Go's `uint` counters are natural numbers reduced modulo `2 ^ 64`.
* The operations are run by one caller at a time.  A call that waits on a
  channel that nobody can serve either gives up (when its cancel channel
  fires) or never returns (`Outcome.blocked`).
* The mutexes are not part of the state: with one caller they are free between
  calls, and every `pool.lock.Unlock()` of the source is recorded in the trace
  as `Event.unlock` together with the state at that point.
* The results of the caller-supplied `Allocate()` and `Release()` and the map
  iteration order used for eviction are inputs of the operations.
-/

namespace Resourcepool

/-- Number of values of Go's `uint` (64-bit targets), that is `2 ^ 64`. -/
def uintSize : Nat := 18446744073709551616

/-- The `x++` of a `uint`. -/
def uintInc (n : Nat) : Nat := (n + 1) % uintSize

/-- The `x--` of a `uint`. -/
def uintDec (n : Nat) : Nat := (n + uintSize - 1) % uintSize

/-- Identity of a `*Resource`. -/
abbrev ResId := Nat

/-- Values of Go's `error` that are not nil: the two package-level errors
returned by `get`, and whatever a strategy returns. -/
inductive Error
  | ErrorPutTimeout
  | ErrorResourceLimitExceeded
  | strategy (code : Nat)
  deriving DecidableEq, Repr

/-- Fields of a `Resource` (the pool pointer and the strategy are fixed). -/
structure Resource where
  /-- Number of items in `resource.semaphore` (capacity 1). -/
  semaphore : Nat
  allocated : Bool
  allocating : Bool
  releaseOnPut : Bool
  releaseError : Option Error
  deriving DecidableEq, Repr

/-- Fields of a `Pool` together with the resources that point to it. -/
structure Pool where
  max : Nat
  /-- Number of items in `pool.semaphore` (capacity `max`). -/
  semaphore : Nat
  /-- Keys of the map `pool.unused`. -/
  unused : List ResId
  numUsed : Nat
  numUnused : Nat
  numReleasing : Nat
  resources : ResId → Resource

/-- Result of `pool.create`: an empty gate and all flags clear. -/
def create : Resource :=
  { semaphore := 0, allocated := false, allocating := false,
    releaseOnPut := false, releaseError := none }

/-- Result of `newPool`: empty semaphore, empty `unused` map, zero counters. -/
def newPool (max : Nat) : Pool :=
  { max := max, semaphore := 0, unused := [], numUsed := 0, numUnused := 0,
    numReleasing := 0, resources := fun _ => create }

/-- What a caller and the strategies can observe during a call. -/
inductive Event
  /-- The pool lock is released; the argument is the state at that point. -/
  | unlock (pool : Pool)
  /-- A call of `allocateReleaser.Allocate()` of a resource and its result. -/
  | allocate (resource : ResId) (err : Option Error)
  /-- A call of `allocateReleaser.Release()` of a resource and its result. -/
  | release (resource : ResId) (err : Option Error)

/-- How a call ends. -/
inductive Outcome
  | returned (err : Option Error)
  | panicked (msg : String)
  | blocked
  deriving DecidableEq, Repr

/-- State, outcome and trace of a call. -/
structure Result where
  pool : Pool
  outcome : Outcome
  trace : List Event

/-- A strategy call recorded in a trace. -/
inductive Call
  | allocate (resource : ResId) (err : Option Error)
  | release (resource : ResId) (err : Option Error)
  deriving DecidableEq, Repr

/-- The strategy calls of a trace, in order. -/
def calls : List Event → List Call
  | [] => []
  | Event.unlock _ :: t => calls t
  | Event.allocate r e :: t => Call.allocate r e :: calls t
  | Event.release r e :: t => Call.release r e :: calls t

/-- The states at which the pool lock was released, in order. -/
def unlocks : List Event → List Pool
  | [] => []
  | Event.unlock p :: t => p :: unlocks t
  | Event.allocate _ _ :: t => unlocks t
  | Event.release _ _ :: t => unlocks t

/-- Replace the state of one resource. -/
def Pool.setRes (pool : Pool) (resource : ResId) (x : Resource) : Pool :=
  { pool with resources := Function.update pool.resources resource x }

/-- The `delete(pool.unused, resource)` of the source. -/
def mapDelete (resource : ResId) (m : List ResId) : List ResId :=
  m.filter (fun x => x != resource)

/-- The `pool.unused[resource] = struct{}{}` of the source. -/
def mapInsert (resource : ResId) (m : List ResId) : List ResId :=
  if resource ∈ m then m else resource :: m

/-- A receive from a channel holding `n` items: `none` when it would wait. -/
def recv (n : Nat) : Option Nat :=
  if n = 0 then none else some (n - 1)

/-- The `getSlot` of the source: `some (pool, true)` when a slot is taken,
`some (pool, false)` when the cancel channel fires first, `none` when the call
waits forever. -/
def getSlot (pool : Pool) (cancel : Bool) : Option (Pool × Bool) :=
  if pool.semaphore < pool.max then
    some ({ pool with semaphore := pool.semaphore + 1 }, true)
  else if cancel then some (pool, false)
  else none

/-- The deferred calls of `get`: `pool.lock.Unlock()` and then the drain of the
checkout gate when `drainSemaphore` is set. -/
def getExit (pool : Pool) (resource : ResId) (drainSemaphore : Bool)
    (outcome : Outcome) (trace : List Event) : Result :=
  let trace := trace ++ [Event.unlock pool]
  if drainSemaphore then
    match recv (pool.resources resource).semaphore with
    | none => { pool := pool, outcome := Outcome.blocked, trace := trace }
    | some n =>
      { pool := pool.setRes resource { pool.resources resource with semaphore := n },
        outcome := outcome, trace := trace }
  else { pool := pool, outcome := outcome, trace := trace }

/-- The resource that the loop `for res := range pool.unused` of `get` yields
first; the iteration order of a Go map is arbitrary, `pick` selects it. -/
def resourceToRelease (pool : Pool) (pick : Nat) : Option ResId :=
  pool.unused.get? (pick % pool.unused.length)

/-- Lines 91 to 107 of `get`: the allocation of the resource. -/
def getAllocate (pool : Pool) (resource : ResId) (allocateResult : Option Error)
    (trace : List Event) : Result :=
  let p4 : Pool :=
    { pool.setRes resource
        { pool.resources resource with allocating := true, allocated := true } with
      numUsed := uintInc pool.numUsed }
  let trace := trace ++ [Event.unlock p4, Event.allocate resource allocateResult]
  let p5 := p4.setRes resource { p4.resources resource with allocating := false }
  match allocateResult with
  | some err =>
    let p6 : Pool :=
      { p5.setRes resource { p5.resources resource with allocated := false } with
        numUsed := uintDec p5.numUsed }
    match recv p6.semaphore with
    | none => { pool := p6, outcome := Outcome.blocked, trace := trace }
    | some n =>
      getExit { p6 with semaphore := n } resource true (Outcome.returned (some err)) trace
  | none => getExit p5 resource false (Outcome.returned none) trace

/-- Lines 57 to 108 of `get`: what it does under the pool lock once it holds the
checkout gate of the resource and a slot of the pool. -/
def getLocked (p2 : Pool) (resource : ResId) (pick : Nat)
    (releaseResult allocateResult : Option Error) : Result :=
  if (p2.resources resource).allocated then
    let unused := mapDelete resource p2.unused
    let p3 : Pool :=
      { p2 with unused := unused, numUnused := unused.length % uintSize,
                numUsed := uintInc p2.numUsed }
    getExit p3 resource false (Outcome.returned none) []
  else if (p2.numUsed + p2.unused.length % uintSize + p2.numReleasing) % uintSize
      ≥ p2.max then
    match resourceToRelease p2 pick with
    | none => getExit p2 resource true (Outcome.panicked "No free resource to release") []
    | some victim =>
      if !(p2.resources victim).allocated then
        getExit p2 resource true (Outcome.panicked "Resource is not allocated") []
      else
        let unused := mapDelete victim p2.unused
        let pa : Pool :=
          { p2.setRes victim { p2.resources victim with allocated := false } with
            unused := unused, numUnused := unused.length % uintSize,
            numReleasing := uintInc p2.numReleasing }
        let pb := pa.setRes victim { pa.resources victim with releaseError := releaseResult }
        let pc : Pool := { pb with numReleasing := uintDec pb.numReleasing }
        getAllocate pc resource allocateResult
          [Event.unlock pa, Event.release victim releaseResult]
  else getAllocate p2 resource allocateResult []

/-- The `get` of the source.  `cancel` tells whether the cancel channel fires,
`pick` selects the resource to evict, `releaseResult` is what the `Release()`
of the evicted resource returns and `allocateResult` what `Allocate()`
returns. -/
def get (pool : Pool) (resource : ResId) (cancel : Bool) (pick : Nat)
    (releaseResult allocateResult : Option Error) : Result :=
  if 1 ≤ (pool.resources resource).semaphore then
    if cancel then
      { pool := pool, outcome := Outcome.returned (some Error.ErrorPutTimeout), trace := [] }
    else { pool := pool, outcome := Outcome.blocked, trace := [] }
  else
    let p1 := pool.setRes resource
      { pool.resources resource with semaphore := (pool.resources resource).semaphore + 1 }
    match getSlot p1 cancel with
    | none => { pool := p1, outcome := Outcome.blocked, trace := [] }
    | some (p1, false) =>
      match recv (p1.resources resource).semaphore with
      | none => { pool := p1, outcome := Outcome.blocked, trace := [] }
      | some n =>
        { pool := p1.setRes resource { p1.resources resource with semaphore := n },
          outcome := Outcome.returned (some Error.ErrorResourceLimitExceeded), trace := [] }
    | some (p2, true) => getLocked p2 resource pick releaseResult allocateResult

/-- The `release` of the source.  `haveLock` only tells whether the caller
already holds the pool lock; `releaseResult` is what `Release()` returns. -/
def release (_haveLock : Bool) (pool : Pool) (resource : ResId)
    (releaseResult : Option Error) : Result :=
  if (pool.resources resource).allocating then
    { pool := pool, outcome := Outcome.panicked "Resource is allocating",
      trace := [Event.unlock pool] }
  else if !(pool.resources resource).allocated then
    { pool := pool, outcome := Outcome.returned (pool.resources resource).releaseError,
      trace := [Event.unlock pool] }
  else
    let unused := mapDelete resource pool.unused
    let p1 : Pool :=
      { pool.setRes resource { pool.resources resource with allocated := false } with
        unused := unused, numUnused := unused.length % uintSize }
    let wasUsed : Bool := decide ((p1.resources resource).semaphore > 0)
    let p2 : Pool :=
      if wasUsed then
        { p1.setRes resource
            { p1.resources resource with semaphore := (p1.resources resource).semaphore - 1 } with
          numUsed := uintDec p1.numUsed }
      else p1
    let p3 : Pool := { p2 with numReleasing := uintInc p2.numReleasing }
    let p4 := p3.setRes resource { p3.resources resource with releaseError := releaseResult }
    let p5 : Pool := { p4 with numReleasing := uintDec p4.numReleasing }
    let trace := [Event.unlock p3, Event.release resource releaseResult, Event.unlock p5]
    if wasUsed then
      match recv p5.semaphore with
      | none => { pool := p5, outcome := Outcome.blocked, trace := trace }
      | some n =>
        { pool := { p5 with semaphore := n },
          outcome := Outcome.returned (p5.resources resource).releaseError, trace := trace }
    else
      { pool := p5, outcome := Outcome.returned (p5.resources resource).releaseError,
        trace := trace }

/-- The `put` of the source; it returns nothing, so a normal return is
`Outcome.returned none`. -/
def put (pool : Pool) (resource : ResId) (releaseResult : Option Error) : Result :=
  if !(pool.resources resource).allocated then
    { pool := pool, outcome := Outcome.returned none, trace := [Event.unlock pool] }
  else if (pool.resources resource).semaphore < 1 then
    { pool := pool, outcome := Outcome.panicked "Resource was not gotten",
      trace := [Event.unlock pool] }
  else if (pool.resources resource).releaseOnPut then
    let res := release true pool resource releaseResult
    match res.outcome with
    | Outcome.returned _ => { res with outcome := Outcome.returned none }
    | _ => res
  else
    let unused := mapInsert resource pool.unused
    let p1 : Pool :=
      { pool.setRes resource
          { pool.resources resource with semaphore := (pool.resources resource).semaphore - 1 } with
        unused := unused, numUnused := unused.length % uintSize,
        numUsed := uintDec pool.numUsed }
    match recv p1.semaphore with
    | none => { pool := p1, outcome := Outcome.blocked, trace := [Event.unlock p1] }
    | some n =>
      { pool := { p1 with semaphore := n }, outcome := Outcome.returned none,
        trace := [Event.unlock p1] }

/-- The `scheduleRelease` of the source. -/
def scheduleRelease (pool : Pool) (resource : ResId) (releaseResult : Option Error) : Result :=
  if (pool.resources resource).semaphore > 0 then
    let p1 := pool.setRes resource { pool.resources resource with releaseOnPut := true }
    { pool := p1, outcome := Outcome.returned none, trace := [Event.unlock p1] }
  else release true pool resource releaseResult

/-- A call of the exported interface.  A `Get` carries the behaviour of its
cancel channel, the eviction choice and the results of the strategy calls it
may make; the other calls carry the result of the `Release()` they may make. -/
inductive Op
  | Get (resource : ResId) (cancel : Bool) (pick : Nat)
      (releaseResult allocateResult : Option Error)
  | Put (resource : ResId) (releaseResult : Option Error)
  | Release (resource : ResId) (releaseResult : Option Error)
  | ScheduleRelease (resource : ResId) (releaseResult : Option Error)

/-- Modelled from the spec: the exported methods `Get`, `Put`, `Release` and
`ScheduleRelease` (declared outside `impl.go`) call `get`, `put`, `release`
without the lock held, and `scheduleRelease`. -/
def step (pool : Pool) : Op → Result
  | Op.Get r cancel pick releaseResult allocateResult =>
    get pool r cancel pick releaseResult allocateResult
  | Op.Put r releaseResult => put pool r releaseResult
  | Op.Release r releaseResult => release false pool r releaseResult
  | Op.ScheduleRelease r releaseResult => scheduleRelease pool r releaseResult

/-- Run calls one after the other; `none` when one of them does not return. -/
def run (pool : Pool) : List Op → Option Pool
  | [] => some pool
  | op :: ops =>
    match (step pool op).outcome with
    | Outcome.returned _ => run (step pool op).pool ops
    | _ => none

/-- The trace of a run: the traces of the calls up to and including the first
one that does not return. -/
def runTrace (pool : Pool) : List Op → List Event
  | [] => []
  | op :: ops =>
    match (step pool op).outcome with
    | Outcome.returned _ => (step pool op).trace ++ runTrace (step pool op).pool ops
    | _ => (step pool op).trace

/-- The sum that the capacity bounds. -/
def Pool.load (pool : Pool) : Nat :=
  pool.numUsed + pool.numUnused + pool.numReleasing

/-- The bookkeeping invariant of the states between calls. -/
structure Inv (p : Pool) : Prop where
  maxLt : p.max < uintSize
  releasing : p.numReleasing = 0
  numUnused : p.numUnused = p.unused.length
  nodup : p.unused.Nodup
  allocating : ∀ r, (p.resources r).allocating = false
  gate : ∀ r, (p.resources r).semaphore ≤ 1
  alloc : ∀ r, (p.resources r).allocated = true ↔
    ((p.resources r).semaphore = 1 ∨ r ∈ p.unused)
  idle : ∀ r, r ∈ p.unused → (p.resources r).semaphore = 0
  used : ∃ S : Finset ResId, (∀ r, r ∈ S ↔ (p.resources r).semaphore = 1) ∧
    p.numUsed = S.card
  tickets : p.semaphore = p.numUsed
  bound : p.numUsed + p.unused.length ≤ p.max

/-- The capacity is unchanged and bounds the load at every release of the
pool lock. -/
def Bounded (p : Pool) (res : Result) : Prop :=
  res.pool.max = p.max ∧ ∀ q ∈ unlocks res.trace, q.load ≤ p.max

/-- The state of `get` once it holds the checkout gate and a slot. -/
def acquire (p : Pool) (r : ResId) : Pool :=
  { p.setRes r { p.resources r with semaphore := (p.resources r).semaphore + 1 } with
    semaphore := p.semaphore + 1 }

/-- The state of `get` after the eviction of `v`, whose `Release()` returned `e`. -/
def evicted (p : Pool) (v : ResId) (e : Option Error) : Pool :=
  { p with
    unused := mapDelete v p.unused
    numUnused := (mapDelete v p.unused).length
    resources := Function.update p.resources v
      { p.resources v with allocated := false, releaseError := e } }

/-- The bookkeeping invariant inside `get`, when resource `r` holds its checkout
gate and a slot but is not yet counted as used. -/
structure Mid (p : Pool) (r : ResId) : Prop where
  maxLt : p.max < uintSize
  releasing : p.numReleasing = 0
  numUnused : p.numUnused = p.unused.length
  nodup : p.unused.Nodup
  allocating : ∀ y, (p.resources y).allocating = false
  gate : ∀ y, (p.resources y).semaphore ≤ 1
  gateR : (p.resources r).semaphore = 1
  alloc : ∀ y, y ≠ r → ((p.resources y).allocated = true ↔
    ((p.resources y).semaphore = 1 ∨ y ∈ p.unused))
  allocR : (p.resources r).allocated = true ↔ r ∈ p.unused
  idle : ∀ y, y ∈ p.unused → y ≠ r → (p.resources y).semaphore = 0
  used : ∃ S : Finset ResId, (∀ y, y ∈ S ↔ ((p.resources y).semaphore = 1 ∧ y ≠ r)) ∧
    p.numUsed = S.card
  tickets : p.semaphore = p.numUsed + 1
  bound : p.numUsed + p.unused.length ≤ p.max
  room : p.numUsed < p.max

/-- The state of `get` while the `Release()` of the evicted resource `v` runs. -/
def evicting (p : Pool) (v : ResId) : Pool :=
  { p with
    unused := mapDelete v p.unused
    numUnused := (mapDelete v p.unused).length
    numReleasing := 1
    resources := Function.update p.resources v { p.resources v with allocated := false } }

/-- The state of `get` while `Allocate()` runs. -/
def allocatingSt (q : Pool) (r : ResId) : Pool :=
  { q with
    numUsed := q.numUsed + 1
    resources := Function.update q.resources r
      { q.resources r with allocating := true, allocated := true } }

/-- The state of `get` after `Allocate()` returned nil. -/
def allocatedSt (q : Pool) (r : ResId) : Pool :=
  { q with
    numUsed := q.numUsed + 1
    resources := Function.update q.resources r
      { q.resources r with allocating := false, allocated := true } }

/-- The state of `get` after `Allocate()` failed and the slot was given back;
`gate` is the number of items in the checkout gate. -/
def failedSt (q : Pool) (r : ResId) (gate : Nat) : Pool :=
  { q with
    semaphore := q.semaphore - 1
    resources := Function.update q.resources r
      { q.resources r with semaphore := gate, allocating := false, allocated := false } }

/-- The resource a call is made on. -/
def Op.resource : Op → ResId
  | Op.Get r _ _ _ _ => r
  | Op.Put r _ => r
  | Op.Release r _ => r
  | Op.ScheduleRelease r _ => r

/-- Whether a call is a `Get`. -/
def Op.isGet : Op → Bool
  | Op.Get _ _ _ _ _ => true
  | _ => false

/-- The state of `put` when it recycles the resource, before and after the slot
is given back (`slots` is the number of items left in the pool semaphore). -/
def recycled (p : Pool) (r : ResId) (slots : Nat) : Pool :=
  { p with
    semaphore := slots
    unused := mapInsert r p.unused
    numUnused := (mapInsert r p.unused).length
    numUsed := p.numUsed - 1
    resources := Function.update p.resources r { p.resources r with semaphore := 0 } }

/-- The state of `release` while `Release()` runs (`releasing = 1`) and after it
returned `e` (`releasing = 0`, `err = e`); `gone` tells whether the resource was
checked out and `slots` is the number of items in the pool semaphore. -/
def releasedSt (p : Pool) (r : ResId) (gone : Bool) (releasing slots : Nat)
    (err : Option Error) : Pool :=
  { p with
    semaphore := slots
    unused := mapDelete r p.unused
    numUnused := (mapDelete r p.unused).length
    numUsed := if gone then p.numUsed - 1 else p.numUsed
    numReleasing := releasing
    resources := Function.update p.resources r
      { p.resources r with semaphore := 0, allocated := false, releaseError := err } }

/-- Whether the strategy of `r` holds live state after the calls of the list,
when `b` tells whether it did before: an `Allocate()` that returned nil makes it
live, a failed `Allocate()` and a `Release()` make it not live. -/
def liveAfter (r : ResId) : Bool → List Call → Bool
  | b, [] => b
  | b, Call.allocate x e :: t => liveAfter r (if x = r then e.isNone else b) t
  | b, Call.release x _ :: t => liveAfter r (if x = r then false else b) t

/-- Whether no `Allocate()` of the strategy of `r` is called in the list while
the strategy is live. -/
def alternates (r : ResId) : Bool → List Call → Bool
  | _, [] => true
  | b, Call.allocate x e :: t =>
    if x = r then !b && alternates r e.isNone t else alternates r b t
  | b, Call.release x _ :: t => alternates r (if x = r then false else b) t

/-- The strategy calls of one call of the pool and their effect on the
`allocated` flags. -/
def Shape (p : Pool) (res : Result) : Prop :=
  (calls res.trace = [] ∧
    ∀ r, (res.pool.resources r).allocated = (p.resources r).allocated) ∨
  (∃ x e, calls res.trace = [Call.release x e] ∧
    ∀ r, (res.pool.resources r).allocated =
      if r = x then false else (p.resources r).allocated) ∨
  (∃ x ae, (p.resources x).allocated = false ∧ calls res.trace = [Call.allocate x ae] ∧
    ∀ r, (res.pool.resources r).allocated =
      if r = x then ae.isNone else (p.resources r).allocated) ∨
  (∃ v x re ae, v ≠ x ∧ (p.resources x).allocated = false ∧
    calls res.trace = [Call.release v re, Call.allocate x ae] ∧
    ∀ r, (res.pool.resources r).allocated =
      if r = x then ae.isNone else if r = v then false else (p.resources r).allocated)

end Resourcepool

/-!
DHCP server (hypervisor/dhcpd/impl.go).

The lease tables and the subnet list of `DhcpServer`.  A Go map with string
keys is a function from `String` to `Option`; a `net.IP` is its list of bytes.
The functions of other packages that the code calls on addresses are the
fields of `NetLib`.  The mutex, the logger and the request channels are not
part of the state: the functions modelled here do not read them.
-/

namespace Dhcpd

/-- A `net.IP`: a slice of bytes. -/
abbrev IP := List Nat

/-- The `proto.Address` of the source. -/
structure Address where
  IpAddress : IP
  MacAddress : String
  deriving DecidableEq, Repr

/-- The fields of `proto.Subnet` that `impl.go` reads. -/
structure Subnet where
  Id : String
  IpGateway : IP
  IpMask : IP
  DomainName : String
  DomainNameServers : List IP
  deriving DecidableEq, Repr

/-- The `leaseType` of the source: an embedded `proto.Address`, the host name
and the netboot flag. -/
structure leaseType where
  address : Address
  Hostname : String
  doNetboot : Bool
  deriving DecidableEq, Repr

/-- Functions declared outside `impl.go` that it calls on addresses:
`util.ShrinkIP` (through `address.Shrink()`), `net.IP.String`, `net.IP.Mask`
and `net.IP.Equal`. -/
structure NetLib where
  ShrinkIP : IP → IP
  ipString : IP → String
  Mask : IP → IP → IP
  Equal : IP → IP → Bool

/-- The functions of `NetLib` on 4-byte (IPv4) addresses and masks: shrinking
leaves such an address unchanged, `String()` is the dotted decimal form, `Mask`
is the bytewise and (nil when the lengths differ), `Equal` compares the
bytes. -/
def ipv4 : NetLib where
  ShrinkIP := fun ip => ip
  ipString := fun ip => String.intercalate "." (ip.map Nat.repr)
  Mask := fun ip m => if ip.length = m.length then List.zipWith Nat.land ip m else []
  Equal := fun a b => decide (a = b)

/-- The fields of `DhcpServer` that the lease and subnet functions use. -/
structure DhcpServer where
  /-- Keys of the map `ackChannels`. -/
  ackChannels : String → Bool
  ipAddrToMacAddr : String → Option String
  leases : String → Option leaseType
  networkBootImage : List Nat
  subnets : List Subnet

/-- The server that `newServer` returns: empty maps, no subnets, no network
boot image. -/
def newServer : DhcpServer :=
  { ackChannels := fun _ => false, ipAddrToMacAddr := fun _ => none,
    leases := fun _ => none, networkBootImage := [], subnets := [] }

/-- How a call without result ends. -/
inductive Completion
  | returned (server : DhcpServer)
  | panicked (msg : String)

/-- The `findMatchingSubnet` of the source: the first subnet whose masked gateway
equals the masked address. -/
def findMatchingSubnet (lib : NetLib) (s : DhcpServer) (ipAddr : IP) : Option Subnet :=
  s.subnets.find? (fun subnet =>
    lib.Equal (lib.Mask ipAddr subnet.IpMask) (lib.Mask subnet.IpGateway subnet.IpMask))

/-- The `addLease` of the source: the new state and the error (`none` is nil). -/
def addLease (lib : NetLib) (s : DhcpServer) (address : Address) (doNetboot : Bool)
    (hostname : String) : DhcpServer × Option String :=
  let address : Address := { address with IpAddress := lib.ShrinkIP address.IpAddress }
  if address.IpAddress.length < 1 then (s, some "no IP address")
  else
    let ipAddr := lib.ipString address.IpAddress
    match findMatchingSubnet lib s address.IpAddress with
    | none => (s, some ("no subnet found for " ++ ipAddr))
    | some _ =>
      if doNetboot && decide (s.networkBootImage.length < 1) then
        (s, some "no Network Boot Image name configured")
      else if doNetboot && (s.leases address.MacAddress).isSome then
        (s, some ("already have lease for: " ++ address.MacAddress))
      else
        ({ s with
           ipAddrToMacAddr := Function.update s.ipAddrToMacAddr ipAddr (some address.MacAddress)
           leases := Function.update s.leases address.MacAddress
             (some { address := address, Hostname := hostname, doNetboot := doNetboot }) },
         none)

/-- The `addSubnet` of the source. -/
def addSubnet (s : DhcpServer) (subnet : Subnet) : DhcpServer :=
  { s with subnets := s.subnets ++ [subnet] }

/-- The `removeLease` of the source.  Reading a missing key of
`ipAddrToMacAddr` yields the empty string. -/
def removeLease (lib : NetLib) (s : DhcpServer) (ipAddr : IP) : DhcpServer :=
  if ipAddr.length < 1 then s
  else
    let ipStr := lib.ipString ipAddr
    { s with
      leases := Function.update s.leases ((s.ipAddrToMacAddr ipStr).getD "") none
      ipAddrToMacAddr := Function.update s.ipAddrToMacAddr ipStr none
      ackChannels := Function.update s.ackChannels ipStr false }

/-- The `removeSubnet` of the source.  `make` panics when the capacity
`len(s.subnets)-1` is negative. -/
def removeSubnet (s : DhcpServer) (subnetId : String) : Completion :=
  if (s.subnets.length : Int) - 1 < 0 then Completion.panicked "makeslice: cap out of range"
  else
    Completion.returned
      { s with
        subnets := s.subnets.foldl
          (fun subnets subnet => if subnet.Id != subnetId then subnets ++ [subnet] else subnets)
          [] }

/-- A call of `addSubnet`, `addLease` or `removeLease`. -/
inductive Action
  | addSubnet (subnet : Subnet)
  | addLease (address : Address) (doNetboot : Bool) (hostname : String)
  | removeLease (ipAddr : IP)

/-- The state after a call. -/
def perform (lib : NetLib) (s : DhcpServer) : Action → DhcpServer
  | Action.addSubnet subnet => addSubnet s subnet
  | Action.addLease address doNetboot hostname => (addLease lib s address doNetboot hostname).1
  | Action.removeLease ipAddr => removeLease lib s ipAddr

/-- The state after a sequence of calls. -/
def performAll (lib : NetLib) (s : DhcpServer) (actions : List Action) : DhcpServer :=
  actions.foldl (perform lib) s

/-- The two lease tables agree: every entry `ip -> mac` of `ipAddrToMacAddr` has
a lease for `mac` whose address is `ip`. -/
def TablesAgree (lib : NetLib) (s : DhcpServer) : Prop :=
  ∀ ip mac, s.ipAddrToMacAddr ip = some mac →
    ∃ lease, s.leases mac = some lease ∧ lib.ipString lease.address.IpAddress = ip

/-- The subnet 10.0.0.0/24 with gateway 10.0.0.254. -/
def net10 : Subnet :=
  { Id := "net10", IpGateway := [10, 0, 0, 254], IpMask := [255, 255, 255, 0],
    DomainName := "", DomainNameServers := [] }

end Dhcpd

namespace Resourcepool

theorem uintInc_of_lt {n : Nat} (h : n + 1 < uintSize) : uintInc n = n + 1 := by
  unfold uintInc; exact Nat.mod_eq_of_lt h

theorem uintDec_of_pos {n : Nat} (h0 : 0 < n) (h : n < uintSize) : uintDec n = n - 1 := by
  unfold uintDec uintSize at *; omega

theorem uintDec_uintInc {n : Nat} (h : n < uintSize) : uintDec (uintInc n) = n := by
  unfold uintDec uintInc uintSize at *; omega

theorem mem_mapDelete {r x : ResId} {m : List ResId} :
    x ∈ mapDelete r m ↔ x ∈ m ∧ x ≠ r := by
  simp [mapDelete]

theorem nodup_mapDelete {r : ResId} {m : List ResId} (h : m.Nodup) :
    (mapDelete r m).Nodup := by
  unfold mapDelete; exact h.filter _

theorem mapDelete_of_not_mem {r : ResId} {m : List ResId} (h : r ∉ m) :
    mapDelete r m = m := by
  unfold mapDelete
  rw [List.filter_eq_self]
  intro a ha
  simp only [bne_iff_ne, ne_eq]
  rintro rfl
  exact h ha

theorem length_mapDelete_of_mem {r : ResId} {m : List ResId} (hn : m.Nodup) (h : r ∈ m) :
    (mapDelete r m).length + 1 = m.length := by
  unfold mapDelete
  rw [← hn.erase_eq_filter, List.length_erase_of_mem h]
  have : 0 < m.length := List.length_pos_of_mem h
  omega

theorem mem_mapInsert {r x : ResId} {m : List ResId} :
    x ∈ mapInsert r m ↔ x = r ∨ x ∈ m := by
  unfold mapInsert
  split
  · constructor
    · exact Or.inr
    · rintro (rfl | h)
      · assumption
      · exact h
  · simp

theorem nodup_mapInsert {r : ResId} {m : List ResId} (h : m.Nodup) :
    (mapInsert r m).Nodup := by
  unfold mapInsert
  split
  · exact h
  · exact List.nodup_cons.mpr ⟨by assumption, h⟩

theorem length_mapInsert_of_not_mem {r : ResId} {m : List ResId} (h : r ∉ m) :
    (mapInsert r m).length = m.length + 1 := by
  simp [mapInsert, h]

theorem inv_newPool {max : Nat} (h : max < uintSize) : Inv (newPool max) := by
  refine ⟨h, rfl, rfl, List.nodup_nil, fun _ => rfl, fun _ => Nat.zero_le _, ?_, ?_, ?_, rfl, ?_⟩
  · intro r; simp [newPool, create]
  · intro r hr; simp [newPool] at hr
  · exact ⟨∅, by simp [newPool, create], rfl⟩
  · simp [newPool]

theorem Inv.numUsed_lt {p : Pool} (h : Inv p) : p.numUsed < uintSize :=
  lt_of_le_of_lt (le_trans (Nat.le_add_right _ _) h.bound) h.maxLt

theorem Inv.length_lt {p : Pool} (h : Inv p) : p.unused.length < uintSize :=
  lt_of_le_of_lt (le_trans (Nat.le_add_left _ _) h.bound) h.maxLt

theorem Inv.numUsed_pos {p : Pool} (h : Inv p) {r : ResId}
    (hr : (p.resources r).semaphore = 1) : 0 < p.numUsed := by
  obtain ⟨S, hS, hc⟩ := h.used
  rw [hc]
  exact Finset.card_pos.mpr ⟨r, (hS r).mpr hr⟩

theorem Inv.not_mem_of_gate {p : Pool} (h : Inv p) {r : ResId}
    (hr : (p.resources r).semaphore = 1) : r ∉ p.unused := by
  intro hm
  have := h.idle r hm
  omega

theorem Inv.mem_of_allocated {p : Pool} (h : Inv p) {r : ResId}
    (ha : (p.resources r).allocated = true) (hg : (p.resources r).semaphore = 0) :
    r ∈ p.unused := by
  rcases (h.alloc r).mp ha with h1 | h1
  · omega
  · exact h1

theorem inv_release {p : Pool} (h : Inv p) (b : Bool) (r : ResId) (e : Option Error) :
    Inv (release b p r e).pool := by
  unfold release
  by_cases ha : (p.resources r).allocating = true
  · simp [ha, h]
  by_cases hb : (p.resources r).allocated = true
  swap
  · simp [ha, hb, h]
  have hg := h.gate r
  have hnl := h.numUsed_lt
  have hll := h.length_lt
  have hrel := h.releasing
  have hdec : uintDec (uintInc p.numReleasing) = 0 := by
    rw [hrel]; unfold uintDec uintInc uintSize; omega
  obtain ⟨S, hS, hc⟩ := h.used
  rcases Nat.eq_zero_or_pos (p.resources r).semaphore with h0 | h1
  · have hm := h.mem_of_allocated hb h0
    have hlen := length_mapDelete_of_mem h.nodup hm
    have hlt : (mapDelete r p.unused).length < uintSize := by omega
    simp only [ha, hb, h0, Pool.setRes, Function.update_same, Function.update_idem,
      gt_iff_lt, lt_self_iff_false, decide_False, Bool.false_eq_true, if_false,
      Bool.not_true, Nat.mod_eq_of_lt hlt, hdec]
    refine ⟨h.maxLt, rfl, rfl, nodup_mapDelete h.nodup, ?_, ?_, ?_, ?_, ?_, h.tickets, ?_⟩
    · intro y
      by_cases hy : y = r
      · subst hy; simp
      · simp [Function.update_noteq hy, h.allocating y]
    · intro y
      by_cases hy : y = r
      · subst hy; simp
      · simp [Function.update_noteq hy, h.gate y]
    · intro y
      by_cases hy : y = r
      · subst hy; simp [mem_mapDelete]
      · simp [Function.update_noteq hy, mem_mapDelete, hy, h.alloc y]
    · intro y hy
      have hy2 := mem_mapDelete.mp hy
      simp [Function.update_noteq hy2.2, h.idle y hy2.1]
    · refine ⟨S, ?_, hc⟩
      intro y
      by_cases hy : y = r
      · subst hy; simp [hS, h0]
      · simp [Function.update_noteq hy, hS]
    · show p.numUsed + (mapDelete r p.unused).length ≤ p.max
      have := h.bound
      omega
  · have h1 : (p.resources r).semaphore = 1 := by omega
    have hnm := h.not_mem_of_gate h1
    have hpos := h.numUsed_pos h1
    have hsem : p.semaphore ≠ 0 := by rw [h.tickets]; omega
    have hud := uintDec_of_pos hpos hnl
    simp only [ha, hb, h1, Pool.setRes, Function.update_same, Function.update_idem,
      gt_iff_lt, Nat.lt_one_iff, Nat.zero_lt_one, decide_True, if_true,
      Bool.not_true, Bool.false_eq_true, if_false, Nat.mod_eq_of_lt hll, hdec,
      mapDelete_of_not_mem hnm, recv, hsem, Nat.sub_self, hud]
    refine ⟨h.maxLt, rfl, rfl, h.nodup, ?_, ?_, ?_, ?_, ?_, ?_, ?_⟩
    · intro y
      by_cases hy : y = r
      · subst hy; simp
      · simp [Function.update_noteq hy, h.allocating y]
    · intro y
      by_cases hy : y = r
      · subst hy; simp
      · simp [Function.update_noteq hy, h.gate y]
    · intro y
      by_cases hy : y = r
      · subst hy; simp [hnm]
      · simp [Function.update_noteq hy, h.alloc y]
    · intro y hy
      have hy2 : y ≠ r := by rintro rfl; exact hnm hy
      simp [Function.update_noteq hy2, h.idle y hy]
    · refine ⟨S.erase r, ?_, ?_⟩
      · intro y
        by_cases hy : y = r
        · subst hy; simp
        · simp [Function.update_noteq hy, hS, hy]
      · show p.numUsed - 1 = (S.erase r).card
        rw [Finset.card_erase_of_mem ((hS r).mpr h1), hc]
    · show p.semaphore - 1 = p.numUsed - 1
      rw [h.tickets]
    · show p.numUsed - 1 + p.unused.length ≤ p.max
      have := h.bound
      omega

theorem Inv.load_le {p : Pool} (h : Inv p) : p.load ≤ p.max := by
  unfold Pool.load
  rw [h.releasing, h.numUnused]
  exact h.bound

theorem bounded_release {p : Pool} (h : Inv p) (b : Bool) (r : ResId) (e : Option Error) :
    Bounded p (release b p r e) := by
  have hload := h.load_le
  unfold release
  by_cases ha : (p.resources r).allocating = true
  · simp [ha, Bounded, unlocks, hload]
  by_cases hb : (p.resources r).allocated = true
  swap
  · simp [ha, hb, Bounded, unlocks, hload]
  have hg := h.gate r
  have hnl := h.numUsed_lt
  have hll := h.length_lt
  have hrel := h.releasing
  have hbd := h.bound
  have hinc : uintInc p.numReleasing = 1 := by
    rw [hrel]; unfold uintInc uintSize; omega
  have hdec : uintDec 1 = 0 := by
    unfold uintDec uintSize; omega
  rcases Nat.eq_zero_or_pos (p.resources r).semaphore with h0 | h1
  · have hm := h.mem_of_allocated hb h0
    have hlen := length_mapDelete_of_mem h.nodup hm
    have hlt : (mapDelete r p.unused).length < uintSize := by omega
    simp only [ha, hb, h0, Pool.setRes, Function.update_same, Function.update_idem,
      gt_iff_lt, lt_self_iff_false, decide_False, Bool.false_eq_true, if_false,
      Bool.not_true, Nat.mod_eq_of_lt hlt, hinc, hdec, Bounded, unlocks, Pool.load,
      List.mem_cons, List.mem_nil_iff, or_false, forall_eq_or_imp, forall_eq, true_and]
    omega
  · have h1 : (p.resources r).semaphore = 1 := by omega
    have hnm := h.not_mem_of_gate h1
    have hpos := h.numUsed_pos h1
    have hsem : p.semaphore ≠ 0 := by rw [h.tickets]; omega
    have hud := uintDec_of_pos hpos hnl
    simp only [ha, hb, h1, Pool.setRes, Function.update_same, Function.update_idem,
      gt_iff_lt, Nat.lt_one_iff, Nat.zero_lt_one, decide_True, if_true,
      Bool.not_true, Bool.false_eq_true, if_false, Nat.mod_eq_of_lt hll, hinc, hdec,
      mapDelete_of_not_mem hnm, recv, hsem, Nat.sub_self, hud, Bounded, unlocks, Pool.load,
      List.mem_cons, List.mem_nil_iff, or_false, forall_eq_or_imp, forall_eq, true_and]
    omega

theorem inv_scheduleRelease {p : Pool} (h : Inv p) (r : ResId) (e : Option Error) :
    Inv (scheduleRelease p r e).pool := by
  unfold scheduleRelease
  split
  · rename_i hg
    simp only [Pool.setRes]
    refine ⟨h.maxLt, h.releasing, h.numUnused, h.nodup, ?_, ?_, ?_, ?_, ?_, h.tickets, h.bound⟩
    · intro y
      by_cases hy : y = r
      · subst hy; simp [h.allocating y]
      · simp [Function.update_noteq hy, h.allocating y]
    · intro y
      by_cases hy : y = r
      · subst hy; simp [h.gate y]
      · simp [Function.update_noteq hy, h.gate y]
    · intro y
      by_cases hy : y = r
      · subst hy; simp [h.alloc y]
      · simp [Function.update_noteq hy, h.alloc y]
    · intro y hm
      by_cases hy : y = r
      · subst hy; simp [h.idle y hm]
      · simp [Function.update_noteq hy, h.idle y hm]
    · obtain ⟨S, hS, hc⟩ := h.used
      refine ⟨S, ?_, hc⟩
      intro y
      by_cases hy : y = r
      · subst hy; simp [hS]
      · simp [Function.update_noteq hy, hS]
  · exact inv_release h true r e

theorem bounded_scheduleRelease {p : Pool} (h : Inv p) (r : ResId) (e : Option Error) :
    Bounded p (scheduleRelease p r e) := by
  unfold scheduleRelease
  split
  · have := h.load_le
    simpa [Bounded, unlocks, Pool.setRes, Pool.load] using this
  · exact bounded_release h true r e

theorem put_release_pool (p : Pool) (r : ResId) (e : Option Error) :
    (match (release true p r e).outcome with
      | Outcome.returned _ => { release true p r e with outcome := Outcome.returned none }
      | _ => release true p r e).pool = (release true p r e).pool := by
  split <;> rfl

theorem put_release_trace (p : Pool) (r : ResId) (e : Option Error) :
    (match (release true p r e).outcome with
      | Outcome.returned _ => { release true p r e with outcome := Outcome.returned none }
      | _ => release true p r e).trace = (release true p r e).trace := by
  split <;> rfl

theorem inv_put {p : Pool} (h : Inv p) (r : ResId) (e : Option Error) :
    Inv (put p r e).pool := by
  unfold put
  by_cases hb : (p.resources r).allocated = true
  swap
  · simp [hb, h]
  by_cases h1 : (p.resources r).semaphore < 1
  · simp [hb, h1, h]
  by_cases hrp : (p.resources r).releaseOnPut = true
  · simp only [hb, h1, hrp, Bool.not_true, Bool.false_eq_true, if_false, if_true]
    rw [put_release_pool]
    exact inv_release h true r e
  have hg := h.gate r
  have h1 : (p.resources r).semaphore = 1 := by omega
  have hnl := h.numUsed_lt
  have hll := h.length_lt
  have hbd := h.bound
  have hnm := h.not_mem_of_gate h1
  have hpos := h.numUsed_pos h1
  have hsem : p.semaphore ≠ 0 := by rw [h.tickets]; omega
  have hud := uintDec_of_pos hpos hnl
  have hlen := length_mapInsert_of_not_mem hnm
  have hlt : (mapInsert r p.unused).length < uintSize := by
    have := h.maxLt; omega
  obtain ⟨S, hS, hc⟩ := h.used
  simp only [hb, h1, hrp, Pool.setRes, Nat.lt_irrefl, Bool.not_true, Bool.false_eq_true,
    if_false, recv, hsem, Nat.sub_self, hud, Nat.mod_eq_of_lt hlt]
  refine ⟨h.maxLt, h.releasing, rfl, nodup_mapInsert h.nodup, ?_, ?_, ?_, ?_, ?_, ?_, ?_⟩
  · intro y
    by_cases hy : y = r
    · subst hy; simp [h.allocating y]
    · simp [Function.update_noteq hy, h.allocating y]
  · intro y
    by_cases hy : y = r
    · subst hy; simp
    · simp [Function.update_noteq hy, h.gate y]
  · intro y
    by_cases hy : y = r
    · subst hy; simp [mem_mapInsert, hb]
    · simp [Function.update_noteq hy, mem_mapInsert, hy, h.alloc y]
  · intro y hm
    by_cases hy : y = r
    · subst hy; simp
    · rcases mem_mapInsert.mp hm with h2 | h2
      · exact absurd h2 hy
      · simp [Function.update_noteq hy, h.idle y h2]
  · refine ⟨S.erase r, ?_, ?_⟩
    · intro y
      by_cases hy : y = r
      · subst hy; simp
      · simp [Function.update_noteq hy, hS, hy]
    · show p.numUsed - 1 = (S.erase r).card
      rw [Finset.card_erase_of_mem ((hS r).mpr h1), hc]
  · show p.semaphore - 1 = p.numUsed - 1
    rw [h.tickets]
  · show p.numUsed - 1 + (mapInsert r p.unused).length ≤ p.max
    omega

theorem bounded_put {p : Pool} (h : Inv p) (r : ResId) (e : Option Error) :
    Bounded p (put p r e) := by
  have hload := h.load_le
  unfold put
  by_cases hb : (p.resources r).allocated = true
  swap
  · simp [hb, Bounded, unlocks, hload]
  by_cases h1 : (p.resources r).semaphore < 1
  · simp [hb, h1, Bounded, unlocks, hload]
  by_cases hrp : (p.resources r).releaseOnPut = true
  · simp only [hb, h1, hrp, Bool.not_true, Bool.false_eq_true, if_false, if_true]
    unfold Bounded
    rw [put_release_pool, put_release_trace]
    exact bounded_release h true r e
  have hg := h.gate r
  have h1 : (p.resources r).semaphore = 1 := by omega
  have hnl := h.numUsed_lt
  have hbd := h.bound
  have hnm := h.not_mem_of_gate h1
  have hpos := h.numUsed_pos h1
  have hsem : p.semaphore ≠ 0 := by rw [h.tickets]; omega
  have hud := uintDec_of_pos hpos hnl
  have hlen := length_mapInsert_of_not_mem hnm
  have hrel := h.releasing
  have hlt : (mapInsert r p.unused).length < uintSize := by
    have := h.maxLt; omega
  simp only [hb, h1, hrp, Pool.setRes, Nat.lt_irrefl, Bool.not_true, Bool.false_eq_true,
    if_false, recv, hsem, Nat.sub_self, hud, Nat.mod_eq_of_lt hlt, Bounded, unlocks, Pool.load,
    List.mem_cons, List.mem_nil_iff, or_false, forall_eq, true_and]
  omega

theorem get_eq_getLocked {p : Pool} {r : ResId} (hg : (p.resources r).semaphore = 0)
    (hs : p.semaphore < p.max) (c : Bool) (pick : Nat) (re ae : Option Error) :
    get p r c pick re ae = getLocked (acquire p r) r pick re ae := by
  unfold get
  simp [hg, getSlot, Pool.setRes, hs, acquire]

theorem mid_acquire {p : Pool} (h : Inv p) {r : ResId} (hg : (p.resources r).semaphore = 0)
    (hs : p.semaphore < p.max) : Mid (acquire p r) r := by
  obtain ⟨S, hS, hc⟩ := h.used
  have ht := h.tickets
  unfold acquire
  simp only [Pool.setRes, hg]
  refine ⟨h.maxLt, h.releasing, h.numUnused, h.nodup, ?_, ?_, ?_, ?_, ?_, ?_, ?_, ?_,
    h.bound, ?_⟩
  · intro y
    by_cases hy : y = r
    · subst hy; simp [h.allocating y]
    · simp [Function.update_noteq hy, h.allocating y]
  · intro y
    by_cases hy : y = r
    · subst hy; simp
    · simp [Function.update_noteq hy, h.gate y]
  · simp
  · intro y hy
    simp [Function.update_noteq hy, h.alloc y]
  · simp only [Function.update_same]
    rw [h.alloc r]
    simp [hg]
  · intro y hm hy
    simp [Function.update_noteq hy, h.idle y hm]
  · refine ⟨S, ?_, hc⟩
    intro y
    by_cases hy : y = r
    · subst hy; simp [hS, hg]
    · simp [Function.update_noteq hy, hS, hy]
  · show p.semaphore + 1 = p.numUsed + 1
    rw [ht]
  · show p.numUsed < p.max
    omega

theorem mid_evicted {p : Pool} {r v : ResId} (h : Mid p r) (hv : v ∈ p.unused) (hvr : v ≠ r)
    (e : Option Error) : Mid (evicted p v e) r := by
  obtain ⟨S, hS, hc⟩ := h.used
  have hlen := length_mapDelete_of_mem h.nodup hv
  have hbd := h.bound
  have hv0 := h.idle v hv hvr
  unfold evicted
  refine ⟨h.maxLt, h.releasing, rfl, nodup_mapDelete h.nodup, ?_, ?_, ?_, ?_, ?_, ?_, ?_,
    h.tickets, ?_, h.room⟩
  · intro y
    by_cases hy : y = v
    · subst hy; simp [h.allocating y]
    · simp [Function.update_noteq hy, h.allocating y]
  · intro y
    by_cases hy : y = v
    · subst hy; simp [h.gate y]
    · simp [Function.update_noteq hy, h.gate y]
  · simp [Function.update_noteq hvr.symm, h.gateR]
  · intro y hyr
    by_cases hy : y = v
    · subst hy; simp [mem_mapDelete, hv0]
    · simp [Function.update_noteq hy, mem_mapDelete, hy, h.alloc y hyr]
  · simp only [Function.update_noteq hvr.symm, mem_mapDelete]
    rw [h.allocR]
    simp [hvr.symm]
  · intro y hm hyr
    have hy2 := mem_mapDelete.mp hm
    simp [Function.update_noteq hy2.2, h.idle y hy2.1 hyr]
  · refine ⟨S, ?_, hc⟩
    intro y
    by_cases hy : y = v
    · subst hy; simp [hS, hv0]
    · simp [Function.update_noteq hy, hS]
  · show p.numUsed + (mapDelete v p.unused).length ≤ p.max
    omega

theorem resourceToRelease_mem {p : Pool} {pick : Nat} {v : ResId}
    (h : resourceToRelease p pick = some v) : v ∈ p.unused :=
  List.get?_mem h

theorem resourceToRelease_isSome {p : Pool} (pick : Nat) (h : 0 < p.unused.length) :
    ∃ v, resourceToRelease p pick = some v := by
  unfold resourceToRelease
  have hlt : pick % p.unused.length < p.unused.length := Nat.mod_lt _ h
  exact ⟨p.unused.get ⟨_, hlt⟩, List.get?_eq_get hlt⟩

theorem Mid.saturated_iff {p : Pool} {r : ResId} (h : Mid p r) :
    (p.numUsed + p.unused.length % uintSize + p.numReleasing) % uintSize ≥ p.max ↔
      p.max ≤ p.numUsed + p.unused.length := by
  have h1 := h.maxLt
  have h2 := h.bound
  rw [h.releasing]
  unfold uintSize at *
  omega

theorem Inv.full_iff {p : Pool} (h : Inv p) :
    (p.numUsed + p.unused.length % uintSize + p.numReleasing) % uintSize ≥ p.max ↔
      p.max ≤ p.numUsed + p.unused.length := by
  have h1 := h.maxLt
  have h2 := h.bound
  rw [h.releasing]
  unfold uintSize at *
  omega

theorem getLocked_reuse {p : Pool} {r : ResId} (h : Mid p r)
    (ha : (p.resources r).allocated = true) (pick : Nat) (re ae : Option Error) :
    getLocked p r pick re ae =
      { pool := { p with unused := mapDelete r p.unused
                         numUnused := (mapDelete r p.unused).length
                         numUsed := p.numUsed + 1 }
        outcome := Outcome.returned none
        trace := [Event.unlock { p with unused := mapDelete r p.unused
                                        numUnused := (mapDelete r p.unused).length
                                        numUsed := p.numUsed + 1 }] } := by
  have hm := h.allocR.mp ha
  have hlen := length_mapDelete_of_mem h.nodup hm
  have hb := h.bound
  have hmax := h.maxLt
  have hlt : (mapDelete r p.unused).length < uintSize := by omega
  have hinc : uintInc p.numUsed = p.numUsed + 1 := uintInc_of_lt (by omega)
  unfold getLocked
  simp [ha, getExit, Nat.mod_eq_of_lt hlt, hinc]

theorem getLocked_fresh {p : Pool} {r : ResId} (h : Mid p r)
    (ha : (p.resources r).allocated = false) (hroom : p.numUsed + p.unused.length < p.max)
    (pick : Nat) (re ae : Option Error) :
    getLocked p r pick re ae = getAllocate p r ae [] := by
  have hs := h.saturated_iff
  unfold getLocked
  rw [if_neg (by simp [ha]), if_neg (by rw [hs]; omega)]

theorem getLocked_evict {p : Pool} {r : ResId} (h : Mid p r)
    (ha : (p.resources r).allocated = false) (hfull : p.max ≤ p.numUsed + p.unused.length)
    (pick : Nat) (re ae : Option Error) :
    ∃ v, resourceToRelease p pick = some v ∧ v ∈ p.unused ∧ v ≠ r ∧
      (p.resources v).allocated = true ∧
      getLocked p r pick re ae =
        getAllocate (evicted p v re) r ae [Event.unlock (evicting p v), Event.release v re] := by
  have hs := h.saturated_iff
  have hroom := h.room
  obtain ⟨v, hv⟩ := resourceToRelease_isSome (p := p) pick (by omega)
  have hm := resourceToRelease_mem hv
  have hvr : v ≠ r := by
    rintro rfl
    have := h.allocR.mpr hm
    rw [ha] at this
    exact Bool.noConfusion this
  have hva : (p.resources v).allocated = true := (h.alloc v hvr).mpr (Or.inr hm)
  refine ⟨v, hv, hm, hvr, hva, ?_⟩
  have hlen := length_mapDelete_of_mem h.nodup hm
  have hb := h.bound
  have hmax := h.maxLt
  have hlt : (mapDelete v p.unused).length < uintSize := by omega
  have hinc : uintInc p.numReleasing = 1 := by
    rw [h.releasing]; unfold uintInc uintSize; omega
  have hdec : uintDec 1 = 0 := by
    unfold uintDec uintSize; omega
  unfold getLocked
  rw [if_neg (by simp [ha]), if_pos (by rw [hs]; omega)]
  simp only [hv, hva, Bool.not_true, Bool.false_eq_true, if_false, Pool.setRes,
    Function.update_same, Function.update_idem, Nat.mod_eq_of_lt hlt, hinc, hdec]
  simp only [evicted, evicting, h.releasing]

theorem getAllocate_ok {q : Pool} {r : ResId} (h : Mid q r) (tr : List Event) :
    getAllocate q r none tr =
      { pool := allocatedSt q r, outcome := Outcome.returned none,
        trace := tr ++ [Event.unlock (allocatingSt q r), Event.allocate r none] ++
          [Event.unlock (allocatedSt q r)] } := by
  have h1 := h.room
  have h2 := h.maxLt
  have hinc : uintInc q.numUsed = q.numUsed + 1 := uintInc_of_lt (by omega)
  unfold getAllocate
  simp [getExit, Pool.setRes, hinc, allocatedSt, allocatingSt]

theorem getAllocate_fail {q : Pool} {r : ResId} (h : Mid q r) (e : Error) (tr : List Event) :
    getAllocate q r (some e) tr =
      { pool := failedSt q r 0, outcome := Outcome.returned (some e),
        trace := tr ++ [Event.unlock (allocatingSt q r), Event.allocate r (some e)] ++
          [Event.unlock (failedSt q r 1)] } := by
  have h1 := h.room
  have h2 := h.maxLt
  have hinc : uintInc q.numUsed = q.numUsed + 1 := uintInc_of_lt (by omega)
  have hdec : uintDec (q.numUsed + 1) = q.numUsed := by
    rw [← hinc]; exact uintDec_uintInc (by omega)
  have hs : q.semaphore ≠ 0 := by rw [h.tickets]; omega
  unfold getAllocate
  simp [getExit, Pool.setRes, hinc, hdec, recv, hs, h.gateR, failedSt, allocatingSt]

theorem inv_allocatedSt {q : Pool} {r : ResId} (h : Mid q r)
    (ha : (q.resources r).allocated = false) (hroom : q.numUsed + q.unused.length < q.max) :
    Inv (allocatedSt q r) := by
  obtain ⟨S, hS, hc⟩ := h.used
  have hnm : r ∉ q.unused := by
    intro hm
    have := h.allocR.mpr hm
    rw [ha] at this
    exact Bool.noConfusion this
  unfold allocatedSt
  refine ⟨h.maxLt, h.releasing, h.numUnused, h.nodup, ?_, ?_, ?_, ?_, ?_, h.tickets, ?_⟩
  · intro y
    by_cases hy : y = r
    · subst hy; simp
    · simp [Function.update_noteq hy, h.allocating y]
  · intro y
    by_cases hy : y = r
    · subst hy; simp [h.gate y]
    · simp [Function.update_noteq hy, h.gate y]
  · intro y
    by_cases hy : y = r
    · subst hy; simp [h.gateR]
    · simp [Function.update_noteq hy, h.alloc y hy]
  · intro y hm
    have hy : y ≠ r := by rintro rfl; exact hnm hm
    simp [Function.update_noteq hy, h.idle y hm hy]
  · refine ⟨insert r S, ?_, ?_⟩
    · intro y
      by_cases hy : y = r
      · subst hy; simp [h.gateR]
      · simp [Function.update_noteq hy, hS, hy]
    · show q.numUsed + 1 = (insert r S).card
      rw [Finset.card_insert_of_not_mem (by simp [hS]), hc]
  · show q.numUsed + 1 + q.unused.length ≤ q.max
    omega

theorem inv_failedSt {q : Pool} {r : ResId} (h : Mid q r)
    (ha : (q.resources r).allocated = false) : Inv (failedSt q r 0) := by
  obtain ⟨S, hS, hc⟩ := h.used
  have hnm : r ∉ q.unused := by
    intro hm
    have := h.allocR.mpr hm
    rw [ha] at this
    exact Bool.noConfusion this
  unfold failedSt
  refine ⟨h.maxLt, h.releasing, h.numUnused, h.nodup, ?_, ?_, ?_, ?_, ?_, ?_, h.bound⟩
  · intro y
    by_cases hy : y = r
    · subst hy; simp
    · simp [Function.update_noteq hy, h.allocating y]
  · intro y
    by_cases hy : y = r
    · subst hy; simp
    · simp [Function.update_noteq hy, h.gate y]
  · intro y
    by_cases hy : y = r
    · subst hy; simp [hnm]
    · simp [Function.update_noteq hy, h.alloc y hy]
  · intro y hm
    have hy : y ≠ r := by rintro rfl; exact hnm hm
    simp [Function.update_noteq hy, h.idle y hm hy]
  · refine ⟨S, ?_, hc⟩
    intro y
    by_cases hy : y = r
    · subst hy; simp [hS]
    · simp [Function.update_noteq hy, hS, hy]
  · show q.semaphore - 1 = q.numUsed
    rw [h.tickets]; rfl

theorem inv_reuse {p : Pool} {r : ResId} (h : Mid p r)
    (ha : (p.resources r).allocated = true) :
    Inv { p with unused := mapDelete r p.unused
                 numUnused := (mapDelete r p.unused).length
                 numUsed := p.numUsed + 1 } := by
  obtain ⟨S, hS, hc⟩ := h.used
  have hm := h.allocR.mp ha
  have hlen := length_mapDelete_of_mem h.nodup hm
  have hb := h.bound
  refine ⟨h.maxLt, h.releasing, rfl, nodup_mapDelete h.nodup, h.allocating, h.gate, ?_, ?_, ?_,
    h.tickets, ?_⟩
  · intro y
    by_cases hy : y = r
    · subst hy; simp [h.gateR, ha]
    · simp [mem_mapDelete, hy, h.alloc y hy]
  · intro y hy
    have hy2 := mem_mapDelete.mp hy
    exact h.idle y hy2.1 hy2.2
  · refine ⟨insert r S, ?_, ?_⟩
    · intro y
      by_cases hy : y = r
      · subst hy; simp [h.gateR]
      · simp [hS, hy]
    · show p.numUsed + 1 = (insert r S).card
      rw [Finset.card_insert_of_not_mem (by simp [hS]), hc]
  · show p.numUsed + 1 + (mapDelete r p.unused).length ≤ p.max
    omega

theorem Pool.setRes_self (p : Pool) (r : ResId) : p.setRes r (p.resources r) = p := by
  unfold Pool.setRes
  rw [Function.update_eq_self]

theorem get_gate_held {p : Pool} {r : ResId} (hg : 1 ≤ (p.resources r).semaphore)
    (c : Bool) (pick : Nat) (re ae : Option Error) :
    get p r c pick re ae =
      { pool := p
        outcome := if c then Outcome.returned (some Error.ErrorPutTimeout) else Outcome.blocked
        trace := [] } := by
  unfold get
  cases c <;> simp [hg]

theorem get_no_slot_cancel {p : Pool} {r : ResId} (hg : (p.resources r).semaphore = 0)
    (hs : ¬ p.semaphore < p.max) (pick : Nat) (re ae : Option Error) :
    get p r true pick re ae =
      { pool := p, outcome := Outcome.returned (some Error.ErrorResourceLimitExceeded),
        trace := [] } := by
  have hres : ({ p.resources r with semaphore := 0 } : Resource) = p.resources r := by
    rw [← hg]
  unfold get
  simp only [hg, getSlot, Pool.setRes, hs, recv, Function.update_same, Function.update_idem]
  simp [hres]

theorem get_no_slot_block {p : Pool} {r : ResId} (hg : (p.resources r).semaphore = 0)
    (hs : ¬ p.semaphore < p.max) (pick : Nat) (re ae : Option Error) :
    get p r false pick re ae =
      { pool := p.setRes r { p.resources r with semaphore := 1 }, outcome := Outcome.blocked,
        trace := [] } := by
  unfold get
  simp [hg, getSlot, Pool.setRes, hs]

theorem unlocks_append (a b : List Event) : unlocks (a ++ b) = unlocks a ++ unlocks b := by
  induction a with
  | nil => rfl
  | cons x t ih => cases x <;> simp [unlocks, ih]

theorem calls_append (a b : List Event) : calls (a ++ b) = calls a ++ calls b := by
  induction a with
  | nil => rfl
  | cons x t ih => cases x <;> simp [calls, ih]

theorem inv_getLocked {p : Pool} {r : ResId} (h : Mid p r) (pick : Nat)
    (re ae : Option Error) : Inv (getLocked p r pick re ae).pool := by
  by_cases ha : (p.resources r).allocated = true
  · rw [getLocked_reuse h ha]
    exact inv_reuse h ha
  have ha : (p.resources r).allocated = false := by simpa using ha
  by_cases hroom : p.numUsed + p.unused.length < p.max
  · rw [getLocked_fresh h ha hroom]
    cases ae with
    | none => rw [getAllocate_ok h]; exact inv_allocatedSt h ha hroom
    | some e => rw [getAllocate_fail h]; exact inv_failedSt h ha
  · obtain ⟨v, -, hv, hvr, -, heq⟩ := getLocked_evict h ha (by omega) pick re ae
    rw [heq]
    have hm := mid_evicted h hv hvr re
    have ha2 : ((evicted p v re).resources r).allocated = false := by
      simp [evicted, Function.update_noteq hvr.symm, ha]
    have hroom2 : (evicted p v re).numUsed + (evicted p v re).unused.length
        < (evicted p v re).max := by
      have := length_mapDelete_of_mem h.nodup hv
      have := h.bound
      show p.numUsed + (mapDelete v p.unused).length < p.max
      omega
    cases ae with
    | none => rw [getAllocate_ok hm]; exact inv_allocatedSt hm ha2 hroom2
    | some e => rw [getAllocate_fail hm]; exact inv_failedSt hm ha2

theorem bounded_getLocked {p : Pool} {r : ResId} (h : Mid p r) (pick : Nat)
    (re ae : Option Error) : Bounded p (getLocked p r pick re ae) := by
  have hb := h.bound
  have hrel := h.releasing
  have hnu := h.numUnused
  by_cases ha : (p.resources r).allocated = true
  · rw [getLocked_reuse h ha]
    have hlen := length_mapDelete_of_mem h.nodup (h.allocR.mp ha)
    simp only [Bounded, unlocks, Pool.load, List.mem_cons, List.mem_nil_iff, or_false,
      forall_eq, true_and, hrel]
    omega
  have ha : (p.resources r).allocated = false := by simpa using ha
  by_cases hroom : p.numUsed + p.unused.length < p.max
  · rw [getLocked_fresh h ha hroom]
    cases ae with
    | none =>
      rw [getAllocate_ok h]
      simp only [Bounded, unlocks_append, unlocks, allocatedSt, allocatingSt, Pool.load,
        List.nil_append, List.cons_append, List.mem_cons, List.mem_nil_iff, or_false,
        forall_eq_or_imp, forall_eq, true_and, hrel, hnu]
      omega
    | some e =>
      rw [getAllocate_fail h]
      simp only [Bounded, unlocks_append, unlocks, failedSt, allocatingSt, Pool.load,
        List.nil_append, List.cons_append, List.mem_cons, List.mem_nil_iff, or_false,
        forall_eq_or_imp, forall_eq, true_and, hrel, hnu]
      omega
  · obtain ⟨v, -, hv, hvr, -, heq⟩ := getLocked_evict h ha (by omega) pick re ae
    rw [heq]
    have hm := mid_evicted h hv hvr re
    have hlen := length_mapDelete_of_mem h.nodup hv
    cases ae with
    | none =>
      rw [getAllocate_ok hm]
      simp only [Bounded, unlocks_append, unlocks, allocatedSt, allocatingSt, Pool.load,
        evicted, evicting,
        List.nil_append, List.cons_append, List.mem_cons, List.mem_nil_iff, or_false,
        forall_eq_or_imp, forall_eq, true_and, hrel, hnu]
      omega
    | some e =>
      rw [getAllocate_fail hm]
      simp only [Bounded, unlocks_append, unlocks, failedSt, allocatingSt, Pool.load,
        evicted, evicting,
        List.nil_append, List.cons_append, List.mem_cons, List.mem_nil_iff, or_false,
        forall_eq_or_imp, forall_eq, true_and, hrel, hnu]
      omega

theorem inv_get {p : Pool} (h : Inv p) (r : ResId) (c : Bool) (pick : Nat)
    (re ae : Option Error) (hret : (get p r c pick re ae).outcome ≠ Outcome.blocked) :
    Inv (get p r c pick re ae).pool := by
  by_cases hg : 1 ≤ (p.resources r).semaphore
  · rw [get_gate_held hg]; exact h
  have hg : (p.resources r).semaphore = 0 := by omega
  by_cases hs : p.semaphore < p.max
  · rw [get_eq_getLocked hg hs]
    exact inv_getLocked (mid_acquire h hg hs) pick re ae
  · cases c with
    | true => rw [get_no_slot_cancel hg hs]; exact h
    | false =>
      rw [get_no_slot_block hg hs] at hret
      exact absurd rfl hret

theorem bounded_get {p : Pool} (h : Inv p) (r : ResId) (c : Bool) (pick : Nat)
    (re ae : Option Error) :
    Bounded p (get p r c pick re ae) ∧ (get p r c pick re ae).pool.load ≤ p.max := by
  have hload := h.load_le
  by_cases hg : 1 ≤ (p.resources r).semaphore
  · rw [get_gate_held hg]
    exact ⟨⟨rfl, by simp [unlocks]⟩, hload⟩
  have hg : (p.resources r).semaphore = 0 := by omega
  by_cases hs : p.semaphore < p.max
  · rw [get_eq_getLocked hg hs]
    have hm := mid_acquire h hg hs
    have hb := bounded_getLocked hm pick re ae
    have hi := (inv_getLocked hm pick re ae).load_le
    rw [hb.1] at hi
    exact ⟨hb, hi⟩
  · cases c with
    | true =>
      rw [get_no_slot_cancel hg hs]
      exact ⟨⟨rfl, by simp [unlocks]⟩, hload⟩
    | false =>
      rw [get_no_slot_block hg hs]
      exact ⟨⟨rfl, by simp [unlocks]⟩, hload⟩

theorem inv_step {p : Pool} (h : Inv p) (op : Op)
    (hret : (step p op).outcome ≠ Outcome.blocked) : Inv (step p op).pool := by
  cases op with
  | Get r c pick re ae => exact inv_get h r c pick re ae hret
  | Put r e => exact inv_put h r e
  | Release r e => exact inv_release h false r e
  | ScheduleRelease r e => exact inv_scheduleRelease h r e

theorem bounded_step {p : Pool} (h : Inv p) (op : Op) :
    Bounded p (step p op) ∧ (step p op).pool.load ≤ p.max := by
  cases op with
  | Get r c pick re ae => exact bounded_get h r c pick re ae
  | Put r e =>
    have hb := bounded_put h r e
    have hi := (inv_put h r e).load_le
    rw [hb.1] at hi
    exact ⟨hb, hi⟩
  | Release r e =>
    have hb := bounded_release h false r e
    have hi := (inv_release h false r e).load_le
    rw [hb.1] at hi
    exact ⟨hb, hi⟩
  | ScheduleRelease r e =>
    have hb := bounded_scheduleRelease h r e
    have hi := (inv_scheduleRelease h r e).load_le
    rw [hb.1] at hi
    exact ⟨hb, hi⟩

theorem run_cons_some {p q : Pool} {op : Op} {ops : List Op}
    (h : run p (op :: ops) = some q) :
    (∃ e, (step p op).outcome = Outcome.returned e) ∧ run (step p op).pool ops = some q := by
  unfold run at h
  split at h
  · rename_i e he
    exact ⟨⟨e, he⟩, h⟩
  · exact absurd h (by simp)

theorem inv_run {p : Pool} (h : Inv p) {ops : List Op} {q : Pool}
    (hrun : run p ops = some q) : Inv q ∧ q.max = p.max := by
  induction ops generalizing p with
  | nil =>
    simp only [run, Option.some.injEq] at hrun
    subst hrun
    exact ⟨h, rfl⟩
  | cons op ops ih =>
    obtain ⟨⟨e, he⟩, hrest⟩ := run_cons_some hrun
    have hi := inv_step h op (by rw [he]; simp)
    have hm := (bounded_step h op).1.1
    obtain ⟨h1, h2⟩ := ih hi hrest
    exact ⟨h1, h2.trans hm⟩

theorem inv_reachable {max : Nat} (hmax : max < uintSize) {ops : List Op} {p : Pool}
    (hrun : run (newPool max) ops = some p) : Inv p ∧ p.max = max :=
  inv_run (inv_newPool hmax) hrun

/-- C1: in a pool built by `newPool` with capacity `max`, after any sequence of
calls that returned, and for any further call (whatever the strategies return,
whatever is cancelled, and however that call ends), the sum
`numUsed + numUnused + numReleasing` is at most `max` before the call, at every
point of the call where the pool lock is released, and after the call. -/
theorem load_le_capacity (max : Nat) (hmax : max < uintSize) (ops : List Op) (p : Pool)
    (hrun : run (newPool max) ops = some p) (op : Op) :
    p.numUsed + p.numUnused + p.numReleasing ≤ max ∧
    (∀ q ∈ unlocks (step p op).trace, q.numUsed + q.numUnused + q.numReleasing ≤ max) ∧
    (step p op).pool.numUsed + (step p op).pool.numUnused + (step p op).pool.numReleasing
      ≤ max := by
  obtain ⟨hi, hm⟩ := inv_reachable hmax hrun
  obtain ⟨⟨-, hb⟩, hl⟩ := bounded_step hi op
  rw [hm] at hb hl
  have h0 := hi.load_le
  rw [hm] at h0
  exact ⟨h0, hb, hl⟩

/-- Instance of C1: capacity 1, after `Get(0)` and `Put(0)`, a `Get(1)` that
evicts resource 0. -/
theorem load_le_capacity_witness :
    ∃ p, run (newPool 1) [Op.Get 0 false 0 none none, Op.Put 0 none] = some p ∧
      (1 < uintSize ∧
       p.numUsed + p.numUnused + p.numReleasing ≤ 1 ∧
       (∀ q ∈ unlocks (step p (Op.Get 1 false 0 none none)).trace,
          q.numUsed + q.numUnused + q.numReleasing ≤ 1) ∧
       (step p (Op.Get 1 false 0 none none)).pool.numUsed +
         (step p (Op.Get 1 false 0 none none)).pool.numUnused +
         (step p (Op.Get 1 false 0 none none)).pool.numReleasing ≤ 1) :=
  ⟨_, rfl, by decide,
    load_le_capacity 1 (by decide) [Op.Get 0 false 0 none none, Op.Put 0 none] _ rfl
      (Op.Get 1 false 0 none none)⟩

theorem put_recycle {p : Pool} (h : Inv p) {r : ResId}
    (hg : (p.resources r).semaphore = 1) (hrp : (p.resources r).releaseOnPut = false)
    (e : Option Error) :
    put p r e =
      { pool := recycled p r (p.semaphore - 1), outcome := Outcome.returned none,
        trace := [Event.unlock (recycled p r p.semaphore)] } := by
  have ha : (p.resources r).allocated = true := (h.alloc r).mpr (Or.inl hg)
  have hnl := h.numUsed_lt
  have hbd := h.bound
  have hnm := h.not_mem_of_gate hg
  have hpos := h.numUsed_pos hg
  have hsem : p.semaphore ≠ 0 := by rw [h.tickets]; omega
  have hud := uintDec_of_pos hpos hnl
  have hlen := length_mapInsert_of_not_mem hnm
  have hlt : (mapInsert r p.unused).length < uintSize := by
    have := h.maxLt; omega
  unfold put
  simp [ha, hg, hrp, Pool.setRes, recv, hsem, hud, Nat.mod_eq_of_lt hlt, recycled]

theorem frame_release {p : Pool} {r y : ResId} (hy : y ≠ r) (b : Bool) (e : Option Error) :
    (release b p r e).pool.resources y = p.resources y := by
  unfold release
  simp only [Pool.setRes]
  split_ifs <;> (try split) <;> simp [Function.update_noteq hy]

theorem frame_put {p : Pool} {r y : ResId} (hy : y ≠ r) (e : Option Error) :
    (put p r e).pool.resources y = p.resources y := by
  unfold put
  split_ifs
  · rfl
  · rfl
  · rw [put_release_pool]; exact frame_release hy true e
  · simp only [Pool.setRes]
    split <;> simp [Function.update_noteq hy]

theorem frame_scheduleRelease {p : Pool} {r y : ResId} (hy : y ≠ r) (e : Option Error) :
    (scheduleRelease p r e).pool.resources y = p.resources y := by
  unfold scheduleRelease
  split_ifs
  · simp [Pool.setRes, Function.update_noteq hy]
  · exact frame_release hy true e

theorem frame_getLocked {p : Pool} {r y : ResId} (h : Mid p r) (hy : y ≠ r)
    (hyu : y ∉ p.unused) (pick : Nat) (re ae : Option Error) :
    (getLocked p r pick re ae).pool.resources y = p.resources y := by
  by_cases ha : (p.resources r).allocated = true
  · rw [getLocked_reuse h ha]
  have ha : (p.resources r).allocated = false := by simpa using ha
  by_cases hroom : p.numUsed + p.unused.length < p.max
  · rw [getLocked_fresh h ha hroom]
    cases ae with
    | none => rw [getAllocate_ok h]; simp [allocatedSt, Function.update_noteq hy]
    | some e => rw [getAllocate_fail h]; simp [failedSt, Function.update_noteq hy]
  · obtain ⟨v, -, hv, hvr, -, heq⟩ := getLocked_evict h ha (by omega) pick re ae
    rw [heq]
    have hm := mid_evicted h hv hvr re
    have hyv : y ≠ v := by rintro rfl; exact hyu hv
    cases ae with
    | none =>
      rw [getAllocate_ok hm]
      simp [allocatedSt, evicted, Function.update_noteq hy, Function.update_noteq hyv]
    | some e =>
      rw [getAllocate_fail hm]
      simp [failedSt, evicted, Function.update_noteq hy, Function.update_noteq hyv]

theorem frame_get {p : Pool} {r y : ResId} (h : Inv p) (hy : y ≠ r)
    (hyu : y ∉ p.unused) (c : Bool) (pick : Nat) (re ae : Option Error) :
    (get p r c pick re ae).pool.resources y = p.resources y := by
  by_cases hg : 1 ≤ (p.resources r).semaphore
  · rw [get_gate_held hg]
  have hg : (p.resources r).semaphore = 0 := by omega
  by_cases hs : p.semaphore < p.max
  · rw [get_eq_getLocked hg hs, frame_getLocked (mid_acquire h hg hs) hy hyu]
    simp [acquire, Pool.setRes, Function.update_noteq hy]
  · cases c with
    | true => rw [get_no_slot_cancel hg hs]
    | false =>
      rw [get_no_slot_block hg hs]
      simp [Pool.setRes, Function.update_noteq hy]

/-- A resource that is checked out is left alone by every call that is not a
`Put`, `Release` or `ScheduleRelease` on it. -/
theorem frame_step {p : Pool} (h : Inv p) {y : ResId}
    (hy : (p.resources y).semaphore = 1) (op : Op)
    (hop : op.isGet = true ∨ op.resource ≠ y) :
    (step p op).pool.resources y = p.resources y := by
  have hyu := h.not_mem_of_gate hy
  cases op with
  | Get r c pick re ae =>
    by_cases hr : y = r
    · subst hr
      show (get p y c pick re ae).pool.resources y = p.resources y
      rw [get_gate_held (by omega)]
    · exact frame_get h hr hyu c pick re ae
  | Put r e =>
    have hr : y ≠ r := by
      rcases hop with h1 | h1
      · exact absurd h1 (by simp [Op.isGet])
      · exact fun h2 => h1 h2.symm
    exact frame_put hr e
  | Release r e =>
    have hr : y ≠ r := by
      rcases hop with h1 | h1
      · exact absurd h1 (by simp [Op.isGet])
      · exact fun h2 => h1 h2.symm
    exact frame_release hr false e
  | ScheduleRelease r e =>
    have hr : y ≠ r := by
      rcases hop with h1 | h1
      · exact absurd h1 (by simp [Op.isGet])
      · exact fun h2 => h1 h2.symm
    exact frame_scheduleRelease hr e

theorem frame_run {p : Pool} (h : Inv p) {y : ResId}
    (hy : (p.resources y).semaphore = 1) {ops : List Op}
    (hops : ∀ op ∈ ops, op.isGet = true ∨ op.resource ≠ y) {q : Pool}
    (hrun : run p ops = some q) : q.resources y = p.resources y := by
  induction ops generalizing p with
  | nil =>
    simp only [run, Option.some.injEq] at hrun
    subst hrun
    rfl
  | cons op ops ih =>
    obtain ⟨⟨e, he⟩, hrest⟩ := run_cons_some hrun
    have hop := hops op (List.mem_cons_self _ _)
    have hi := inv_step h op (by rw [he]; simp)
    have hf := frame_step h hy op hop
    have := ih hi (by rw [hf]; exact hy)
      (fun o ho => hops o (List.mem_cons_of_mem _ ho)) hrest
    rw [this, hf]

theorem get_success_resource {p : Pool} (h : Inv p) {r : ResId}
    (hg : (p.resources r).semaphore = 0) {c : Bool} {pick : Nat} {re ae : Option Error}
    (hret : (get p r c pick re ae).outcome = Outcome.returned none) :
    ((get p r c pick re ae).pool.resources r).semaphore = 1 ∧
    ((get p r c pick re ae).pool.resources r).allocated = true ∧
    ((get p r c pick re ae).pool.resources r).releaseOnPut = (p.resources r).releaseOnPut := by
  by_cases hs : p.semaphore < p.max
  swap
  · cases c with
    | true => rw [get_no_slot_cancel hg hs] at hret; simp at hret
    | false => rw [get_no_slot_block hg hs] at hret; simp at hret
  have hm := mid_acquire h hg hs
  rw [get_eq_getLocked hg hs] at hret ⊢
  by_cases ha : ((acquire p r).resources r).allocated = true
  · rw [getLocked_reuse hm ha]
    refine ⟨hm.gateR, ha, ?_⟩
    simp [acquire, Pool.setRes]
  have ha : ((acquire p r).resources r).allocated = false := by simpa using ha
  by_cases hroom : (acquire p r).numUsed + (acquire p r).unused.length < (acquire p r).max
  · rw [getLocked_fresh hm ha hroom] at hret ⊢
    cases ae with
    | none =>
      rw [getAllocate_ok hm]
      simp [allocatedSt, acquire, Pool.setRes, hg]
    | some e => rw [getAllocate_fail hm] at hret; simp at hret
  · obtain ⟨v, -, hv, hvr, -, heq⟩ := getLocked_evict hm ha (by omega) pick re ae
    rw [heq] at hret ⊢
    have hm2 := mid_evicted hm hv hvr re
    cases ae with
    | none =>
      rw [getAllocate_ok hm2]
      simp [allocatedSt, evicted, acquire, Pool.setRes, hg, Function.update_noteq hvr.symm]
    | some e => rw [getAllocate_fail hm2] at hret; simp at hret

theorem get_idle {p : Pool} (h : Inv p) {r : ResId} (hu : r ∈ p.unused)
    (c : Bool) (pick : Nat) (re ae : Option Error) :
    (get p r c pick re ae).outcome = Outcome.returned none ∧
    calls (get p r c pick re ae).trace = [] := by
  have hg := h.idle r hu
  have hpos : 0 < p.unused.length := List.length_pos_of_mem hu
  have hs : p.semaphore < p.max := by
    have := h.bound
    rw [h.tickets]; omega
  have hm := mid_acquire h hg hs
  have ha : ((acquire p r).resources r).allocated = true := hm.allocR.mpr hu
  rw [get_eq_getLocked hg hs, getLocked_reuse hm ha]
  exact ⟨rfl, rfl⟩

/-- C2 (as amended): in every state reached from `newPool`, for a resource that
is not checked out and whose `releaseOnPut` flag is not set, after a `Get` that
returned nil, any calls that are neither `Put`, `Release` nor `ScheduleRelease`
on that resource, and then `Put`: the `Put` returns without a strategy call, the
resource is allocated, a member of `unused`, its checkout gate is free, and the
next `Get` on it returns nil without any strategy call. -/
theorem roundtrip_reuse (max : Nat) (hmax : max < uintSize) (ops : List Op) (p : Pool)
    (hrun : run (newPool max) ops = some p) (r : ResId)
    (hg : (p.resources r).semaphore = 0) (hrp : (p.resources r).releaseOnPut = false)
    (c : Bool) (pick : Nat) (re ae : Option Error)
    (hget : (get p r c pick re ae).outcome = Outcome.returned none)
    (mid : List Op) (hmid : ∀ op ∈ mid, op.isGet = true ∨ op.resource ≠ r)
    (q : Pool) (hq : run (get p r c pick re ae).pool mid = some q)
    (e : Option Error) :
    (put q r e).outcome = Outcome.returned none ∧
    calls (put q r e).trace = [] ∧
    ((put q r e).pool.resources r).allocated = true ∧
    r ∈ (put q r e).pool.unused ∧
    ((put q r e).pool.resources r).semaphore = 0 ∧
    ∀ (c2 : Bool) (pick2 : Nat) (re2 ae2 : Option Error),
      (get (put q r e).pool r c2 pick2 re2 ae2).outcome = Outcome.returned none ∧
      calls (get (put q r e).pool r c2 pick2 re2 ae2).trace = [] := by
  obtain ⟨hi, -⟩ := inv_reachable hmax hrun
  have hi1 : Inv (get p r c pick re ae).pool := inv_get hi r c pick re ae (by rw [hget]; simp)
  obtain ⟨h1, h2, h3⟩ := get_success_resource hi hg hget
  have hiq : Inv q := (inv_run hi1 hq).1
  have hfr := frame_run hi1 h1 hmid hq
  have hq1 : (q.resources r).semaphore = 1 := by rw [hfr]; exact h1
  have hq2 : (q.resources r).allocated = true := by rw [hfr]; exact h2
  have hq3 : (q.resources r).releaseOnPut = false := by rw [hfr, h3]; exact hrp
  have hip := inv_put hiq r e
  rw [put_recycle hiq hq1 hq3] at hip ⊢
  have hmem : r ∈ (recycled q r (q.semaphore - 1)).unused := by
    simp [recycled, mem_mapInsert]
  refine ⟨rfl, rfl, ?_, hmem, ?_, ?_⟩
  · simp [recycled, hq2]
  · simp [recycled]
  · intro c2 pick2 re2 ae2
    exact get_idle hip hmem c2 pick2 re2 ae2

/-- Instance of C2 (as amended): capacity 1, a fresh pool, `Get(0)`, a cancelled
`Get(1)`, then `Put(0)`. -/
theorem roundtrip_reuse_witness :
    ∃ q, run (get (newPool 1) 0 false 0 none none).pool [Op.Get 1 true 0 none none] = some q ∧
      (1 < uintSize ∧
       run (newPool 1) [] = some (newPool 1) ∧
       ((newPool 1).resources 0).semaphore = 0 ∧
       ((newPool 1).resources 0).releaseOnPut = false ∧
       (get (newPool 1) 0 false 0 none none).outcome = Outcome.returned none ∧
       (∀ op ∈ [Op.Get 1 true 0 none none], op.isGet = true ∨ op.resource ≠ 0)) ∧
      ((put q 0 none).outcome = Outcome.returned none ∧
       calls (put q 0 none).trace = [] ∧
       ((put q 0 none).pool.resources 0).allocated = true ∧
       0 ∈ (put q 0 none).pool.unused ∧
       ((put q 0 none).pool.resources 0).semaphore = 0 ∧
       ∀ (c2 : Bool) (pick2 : Nat) (re2 ae2 : Option Error),
         (get (put q 0 none).pool 0 c2 pick2 re2 ae2).outcome = Outcome.returned none ∧
         calls (get (put q 0 none).pool 0 c2 pick2 re2 ae2).trace = []) :=
  ⟨_, rfl, ⟨by decide, rfl, rfl, rfl, by decide, by decide⟩,
    roundtrip_reuse 1 (by decide) [] (newPool 1) rfl 0 rfl rfl false 0 none none (by decide)
      [Op.Get 1 true 0 none none] (by decide) _ rfl none⟩

/-- Counterexample to C2 as stated: capacity 1; `Get(0)`, `ScheduleRelease(0)`,
`Put(0)` leave resource 0 not checked out; a following `Get(0)` returns nil, and
the `Put(0)` right after it releases the resource instead of recycling it,
because `releaseOnPut` is still set. -/
theorem roundtrip_fails_after_scheduleRelease :
    ∃ p, run (newPool 1)
        [Op.Get 0 false 0 none none, Op.ScheduleRelease 0 none, Op.Put 0 none] = some p ∧
      (p.resources 0).semaphore = 0 ∧
      (get p 0 false 0 none none).outcome = Outcome.returned none ∧
      (put (get p 0 false 0 none none).pool 0 none).outcome = Outcome.returned none ∧
      ((put (get p 0 false 0 none none).pool 0 none).pool.resources 0).allocated = false ∧
      0 ∉ (put (get p 0 false 0 none none).pool 0 none).pool.unused ∧
      calls (get (put (get p 0 false 0 none none).pool 0 none).pool 0 false 0 none none).trace
        = [Call.allocate 0 none] :=
  ⟨_, rfl, by decide, by decide, by decide, by decide, by decide, by decide⟩

theorem calls_getExit (q : Pool) (r : ResId) (d : Bool) (o : Outcome) (tr : List Event) :
    calls (getExit q r d o tr).trace = calls tr := by
  unfold getExit
  cases d
  · simp [calls_append, calls]
  · simp only [if_true]
    split <;> simp [calls_append, calls]

theorem getAllocate_fail_props (p q : Pool) (r : ResId) (e : Error) (tr : List Event)
    (hn : p.numUsed < uintSize) (hs : p.semaphore < p.max)
    (h1 : q.numUsed = p.numUsed) (h2 : q.semaphore = p.semaphore + 1)
    (h3 : (q.resources r).semaphore = 1) (h4 : q.max = p.max) :
    (getAllocate q r (some e) tr).outcome = Outcome.returned (some e) ∧
    ((getAllocate q r (some e) tr).pool.resources r).allocated = false ∧
    ((getAllocate q r (some e) tr).pool.resources r).allocating = false ∧
    (getAllocate q r (some e) tr).pool.numUsed = p.numUsed ∧
    (getAllocate q r (some e) tr).pool.semaphore = p.semaphore ∧
    ((getAllocate q r (some e) tr).pool.resources r).semaphore = 0 ∧
    ∀ c2, ∃ q2, getSlot (getAllocate q r (some e) tr).pool c2 = some (q2, true) := by
  have hdec : uintDec (uintInc q.numUsed) = p.numUsed := by
    rw [h1]; exact uintDec_uintInc hn
  unfold getAllocate
  simp [getExit, Pool.setRes, hdec, recv, h2, h3, getSlot, h4, hs]

/-- C3: whenever `Get` on a resource reaches the strategy's `Allocate()` and
`Allocate()` returns the error `e`, `Get` returns `e`, the resource is neither
allocated nor allocating, `numUsed` and the number of slots held in the pool
semaphore are what they were before the call, the checkout gate of the resource
is free, and `getSlot` succeeds in the resulting state. -/
theorem get_allocate_error (p : Pool) (hn : p.numUsed < uintSize) (r : ResId) (c : Bool)
    (pick : Nat) (re : Option Error) (e : Error)
    (hreach : Call.allocate r (some e) ∈ calls (get p r c pick re (some e)).trace) :
    (get p r c pick re (some e)).outcome = Outcome.returned (some e) ∧
    ((get p r c pick re (some e)).pool.resources r).allocated = false ∧
    ((get p r c pick re (some e)).pool.resources r).allocating = false ∧
    (get p r c pick re (some e)).pool.numUsed = p.numUsed ∧
    (get p r c pick re (some e)).pool.semaphore = p.semaphore ∧
    ((get p r c pick re (some e)).pool.resources r).semaphore = 0 ∧
    ∀ c2, ∃ q, getSlot (get p r c pick re (some e)).pool c2 = some (q, true) := by
  by_cases hg : 1 ≤ (p.resources r).semaphore
  · rw [get_gate_held hg] at hreach
    simp [calls] at hreach
  have hg : (p.resources r).semaphore = 0 := by omega
  by_cases hs : p.semaphore < p.max
  swap
  · cases c with
    | true => rw [get_no_slot_cancel hg hs] at hreach; simp [calls] at hreach
    | false => rw [get_no_slot_block hg hs] at hreach; simp [calls] at hreach
  rw [get_eq_getLocked hg hs] at hreach ⊢
  have hslot : ∀ (q : Pool), q.semaphore = p.semaphore → q.max = p.max →
      ∀ c2, ∃ q2, getSlot q c2 = some (q2, true) := by
    intro q h1 h2 c2
    unfold getSlot
    rw [if_pos (by rw [h1, h2]; exact hs)]
    exact ⟨_, rfl⟩
  unfold getLocked at hreach ⊢
  by_cases ha : ((acquire p r).resources r).allocated = true
  · simp [ha, calls_getExit, calls] at hreach
  rw [if_neg ha] at hreach ⊢
  by_cases hsat : ((acquire p r).numUsed + (acquire p r).unused.length % uintSize +
      (acquire p r).numReleasing) % uintSize ≥ (acquire p r).max
  · rw [if_pos hsat] at hreach ⊢
    rcases hv : resourceToRelease (acquire p r) pick with _ | v
    · simp [hv, calls_getExit, calls] at hreach
    · simp only [hv] at hreach ⊢
      by_cases hva : ((acquire p r).resources v).allocated = true
      swap
      · simp [hva, calls_getExit, calls] at hreach
      have hvr : v ≠ r := by
        rintro rfl
        exact ha hva
      simp only [hva, Bool.not_true, Bool.false_eq_true, if_false]
      exact getAllocate_fail_props p _ r e _ hn hs (by simp [acquire, Pool.setRes])
        (by simp [acquire, Pool.setRes])
        (by simp [acquire, Pool.setRes, Function.update_noteq hvr.symm, hg])
        (by simp [acquire, Pool.setRes])
  · rw [if_neg hsat]
    exact getAllocate_fail_props p _ r e _ hn hs (by simp [acquire, Pool.setRes])
      (by simp [acquire, Pool.setRes]) (by simp [acquire, Pool.setRes, hg])
      (by simp [acquire, Pool.setRes])

/-- Instance of C3: capacity 1, a fresh pool, `Get(0)` whose `Allocate()` returns
an error. -/
theorem get_allocate_error_witness :
    ((newPool 1).numUsed < uintSize ∧
     Call.allocate 0 (some (Error.strategy 7)) ∈
       calls (get (newPool 1) 0 false 0 none (some (Error.strategy 7))).trace) ∧
    ((get (newPool 1) 0 false 0 none (some (Error.strategy 7))).outcome
        = Outcome.returned (some (Error.strategy 7)) ∧
     ((get (newPool 1) 0 false 0 none (some (Error.strategy 7))).pool.resources 0).allocated
        = false ∧
     ((get (newPool 1) 0 false 0 none (some (Error.strategy 7))).pool.resources 0).allocating
        = false ∧
     (get (newPool 1) 0 false 0 none (some (Error.strategy 7))).pool.numUsed
        = (newPool 1).numUsed ∧
     (get (newPool 1) 0 false 0 none (some (Error.strategy 7))).pool.semaphore
        = (newPool 1).semaphore ∧
     ((get (newPool 1) 0 false 0 none (some (Error.strategy 7))).pool.resources 0).semaphore
        = 0 ∧
     ∀ c2, ∃ q,
       getSlot (get (newPool 1) 0 false 0 none (some (Error.strategy 7))).pool c2
         = some (q, true)) :=
  ⟨⟨by decide, by decide⟩,
    get_allocate_error (newPool 1) (by decide) 0 false 0 none (Error.strategy 7) (by decide)⟩

/-- C4: a `Get` whose cancel channel fires returns `ErrorPutTimeout` when the
checkout gate of the resource is held, and `ErrorResourceLimitExceeded` when the
gate is free but every slot of the pool semaphore is taken; in both cases the
state after the call is the state before it and no strategy call is made. -/
theorem cancelled_get_atomic (p : Pool) (r : ResId) (pick : Nat) (re ae : Option Error) :
    (1 ≤ (p.resources r).semaphore →
      (get p r true pick re ae).outcome = Outcome.returned (some Error.ErrorPutTimeout) ∧
      (get p r true pick re ae).pool = p ∧
      (get p r true pick re ae).trace = []) ∧
    ((p.resources r).semaphore = 0 → p.max ≤ p.semaphore →
      (get p r true pick re ae).outcome
        = Outcome.returned (some Error.ErrorResourceLimitExceeded) ∧
      (get p r true pick re ae).pool = p ∧
      (get p r true pick re ae).trace = []) := by
  constructor
  · intro hg
    rw [get_gate_held hg]
    exact ⟨rfl, rfl, rfl⟩
  · intro hg hs
    rw [get_no_slot_cancel hg (by omega)]
    exact ⟨rfl, rfl, rfl⟩

/-- Instance of C4: capacity 1 with resource 0 checked out; a cancelled `Get(0)`
finds the gate held, a cancelled `Get(1)` finds no slot. -/
theorem cancelled_get_atomic_witness :
    (1 ≤ ((get (newPool 1) 0 false 0 none none).pool.resources 0).semaphore ∧
      (get (get (newPool 1) 0 false 0 none none).pool 0 true 0 none none).outcome
        = Outcome.returned (some Error.ErrorPutTimeout) ∧
      (get (get (newPool 1) 0 false 0 none none).pool 0 true 0 none none).pool
        = (get (newPool 1) 0 false 0 none none).pool ∧
      (get (get (newPool 1) 0 false 0 none none).pool 0 true 0 none none).trace = []) ∧
    (((get (newPool 1) 0 false 0 none none).pool.resources 1).semaphore = 0 ∧
      (get (newPool 1) 0 false 0 none none).pool.max
        ≤ (get (newPool 1) 0 false 0 none none).pool.semaphore ∧
      (get (get (newPool 1) 0 false 0 none none).pool 1 true 0 none none).outcome
        = Outcome.returned (some Error.ErrorResourceLimitExceeded) ∧
      (get (get (newPool 1) 0 false 0 none none).pool 1 true 0 none none).pool
        = (get (newPool 1) 0 false 0 none none).pool ∧
      (get (get (newPool 1) 0 false 0 none none).pool 1 true 0 none none).trace = []) :=
  ⟨⟨by decide,
     (cancelled_get_atomic (get (newPool 1) 0 false 0 none none).pool 0 0 none none).1
       (by decide)⟩,
   ⟨by decide, by decide,
     (cancelled_get_atomic (get (newPool 1) 0 false 0 none none).pool 1 0 none none).2
       (by decide) (by decide)⟩⟩

theorem release_not_allocated {p : Pool} {r : ResId}
    (ha : (p.resources r).allocating = false) (hb : (p.resources r).allocated = false)
    (b : Bool) (e : Option Error) :
    release b p r e =
      { pool := p, outcome := Outcome.returned (p.resources r).releaseError,
        trace := [Event.unlock p] } := by
  unfold release
  simp [ha, hb]

theorem release_allocated {p : Pool} (h : Inv p) {r : ResId}
    (hb : (p.resources r).allocated = true) (b : Bool) (e : Option Error) :
    release b p r e =
      { pool := releasedSt p r (decide ((p.resources r).semaphore = 1)) 0
          (p.semaphore - (p.resources r).semaphore) e
        outcome := Outcome.returned e
        trace := [Event.unlock (releasedSt p r (decide ((p.resources r).semaphore = 1)) 1
                    p.semaphore (p.resources r).releaseError),
                  Event.release r e,
                  Event.unlock (releasedSt p r (decide ((p.resources r).semaphore = 1)) 0
                    p.semaphore e)] } := by
  have ha := h.allocating r
  have hg := h.gate r
  have hnl := h.numUsed_lt
  have hll := h.length_lt
  have hrel := h.releasing
  have hinc : uintInc p.numReleasing = 1 := by
    rw [hrel]; unfold uintInc uintSize; omega
  have hdec : uintDec 1 = 0 := by
    unfold uintDec uintSize; omega
  have hlt : (mapDelete r p.unused).length < uintSize := by
    have : (mapDelete r p.unused).length ≤ p.unused.length := by
      unfold mapDelete; exact List.length_filter_le _ _
    omega
  unfold release
  rcases Nat.eq_zero_or_pos (p.resources r).semaphore with h0 | h1
  · simp [ha, hb, h0, Pool.setRes, Nat.mod_eq_of_lt hlt, hinc, hdec, releasedSt]
  · have h1 : (p.resources r).semaphore = 1 := by omega
    have hpos := h.numUsed_pos h1
    have hsem : p.semaphore ≠ 0 := by rw [h.tickets]; omega
    have hud := uintDec_of_pos hpos hnl
    simp [ha, hb, h1, Pool.setRes, Nat.mod_eq_of_lt hlt, hinc, hdec, releasedSt, recv, hsem,
      hud]

/-- C5: in every state reached from `newPool` (no resource is allocating
there), two calls of `Release()` in a row on a resource both return the same
value, the second one makes no strategy call and leaves the state as the first
one left it, and together they call the strategy's `Release()` at most once. -/
theorem release_idempotent (max : Nat) (hmax : max < uintSize) (ops : List Op) (p : Pool)
    (hrun : run (newPool max) ops = some p) (r : ResId) (e1 e2 : Option Error) :
    (p.resources r).allocating = false ∧
    ∃ x, (release false p r e1).outcome = Outcome.returned x ∧
      (release false (release false p r e1).pool r e2).outcome = Outcome.returned x ∧
      (release false (release false p r e1).pool r e2).pool = (release false p r e1).pool ∧
      calls (release false (release false p r e1).pool r e2).trace = [] ∧
      (calls (release false p r e1).trace ++
        calls (release false (release false p r e1).pool r e2).trace = [] ∨
       calls (release false p r e1).trace ++
        calls (release false (release false p r e1).pool r e2).trace = [Call.release r e1]) := by
  obtain ⟨hi, -⟩ := inv_reachable hmax hrun
  have ha := hi.allocating r
  refine ⟨ha, ?_⟩
  by_cases hb : (p.resources r).allocated = true
  · rw [release_allocated hi hb]
    have h1 : ((releasedSt p r (decide ((p.resources r).semaphore = 1)) 0
        (p.semaphore - (p.resources r).semaphore) e1).resources r).allocating = false := by
      simp [releasedSt, ha]
    have h2 : ((releasedSt p r (decide ((p.resources r).semaphore = 1)) 0
        (p.semaphore - (p.resources r).semaphore) e1).resources r).allocated = false := by
      simp [releasedSt]
    rw [release_not_allocated h1 h2]
    refine ⟨e1, rfl, ?_, rfl, rfl, Or.inr rfl⟩
    simp [releasedSt]
  · have hb : (p.resources r).allocated = false := by simpa using hb
    rw [release_not_allocated ha hb, release_not_allocated ha hb]
    exact ⟨_, rfl, rfl, rfl, rfl, Or.inl rfl⟩

/-- Instance of C5: capacity 1, resource 0 checked out, two calls of `Release()`
whose strategy call would fail. -/
theorem release_idempotent_witness :
    ∃ p, run (newPool 1) [Op.Get 0 false 0 none none] = some p ∧ 1 < uintSize ∧
      ((p.resources 0).allocating = false ∧
       ∃ x, (release false p 0 (some (Error.strategy 3))).outcome = Outcome.returned x ∧
        (release false (release false p 0 (some (Error.strategy 3))).pool 0 none).outcome
          = Outcome.returned x ∧
        (release false (release false p 0 (some (Error.strategy 3))).pool 0 none).pool
          = (release false p 0 (some (Error.strategy 3))).pool ∧
        calls (release false (release false p 0 (some (Error.strategy 3))).pool 0 none).trace
          = [] ∧
        (calls (release false p 0 (some (Error.strategy 3))).trace ++
          calls (release false (release false p 0 (some (Error.strategy 3))).pool 0 none).trace
            = [] ∨
         calls (release false p 0 (some (Error.strategy 3))).trace ++
          calls (release false (release false p 0 (some (Error.strategy 3))).pool 0 none).trace
            = [Call.release 0 (some (Error.strategy 3))])) :=
  ⟨_, rfl, by decide,
    release_idempotent 1 (by decide) [Op.Get 0 false 0 none none] _ rfl 0
      (some (Error.strategy 3)) none⟩

/-- C6 (as amended): when the checkout gate of a resource is free, `Put` panics
with "Resource was not gotten" if the resource is allocated, and returns without
any effect if it is not allocated; in both cases the state is unchanged and no
strategy call is made. -/
theorem put_not_gotten (p : Pool) (r : ResId) (e : Option Error)
    (hg : (p.resources r).semaphore = 0) :
    ((p.resources r).allocated = true →
      (put p r e).outcome = Outcome.panicked "Resource was not gotten" ∧
      (put p r e).pool = p ∧ calls (put p r e).trace = []) ∧
    ((p.resources r).allocated = false →
      (put p r e).outcome = Outcome.returned none ∧
      (put p r e).pool = p ∧ calls (put p r e).trace = []) := by
  constructor
  · intro ha
    unfold put
    simp [ha, hg, calls]
  · intro ha
    unfold put
    simp [ha, calls]

/-- Instance of C6 (as amended): capacity 1; after `Get(0)` and `Put(0)` resource
0 is allocated and idle and another `Put(0)` panics; resource 1 was never gotten
and `Put(1)` returns. -/
theorem put_not_gotten_witness :
    ∃ p, run (newPool 1) [Op.Get 0 false 0 none none, Op.Put 0 none] = some p ∧
      ((p.resources 0).semaphore = 0 ∧ (p.resources 0).allocated = true ∧
        (put p 0 none).outcome = Outcome.panicked "Resource was not gotten" ∧
        (put p 0 none).pool = p ∧ calls (put p 0 none).trace = []) ∧
      ((p.resources 1).semaphore = 0 ∧ (p.resources 1).allocated = false ∧
        (put p 1 none).outcome = Outcome.returned none ∧
        (put p 1 none).pool = p ∧ calls (put p 1 none).trace = []) :=
  ⟨_, rfl,
    ⟨by decide, by decide, (put_not_gotten _ 0 none (by decide)).1 (by decide)⟩,
    ⟨by decide, by decide, (put_not_gotten _ 1 none (by decide)).2 (by decide)⟩⟩

/-- Counterexample to C6 as stated: on a resource that was created and never
gotten (its checkout gate is free), `Put` returns normally. -/
theorem put_fresh_returns :
    ((newPool 1).resources 0).semaphore = 0 ∧
    (put (newPool 1) 0 none).outcome = Outcome.returned none := by
  decide

theorem resourceToRelease_acquire (p : Pool) (r : ResId) (pick : Nat) :
    resourceToRelease (acquire p r) pick = resourceToRelease p pick := rfl

/-- C7: in every state reached from `newPool`, for a resource `r` that is not
allocated and not checked out, when a slot of the pool semaphore is free:
if `numUsed + numUnused + numReleasing >= max`, `Get(r)` returns (it does not
panic), it evicts the one resource `v` of `unused` that the map iteration
yields (in the resulting state `unused` is the former set without `v`, one
element shorter, and `v` is not allocated), and its strategy calls are the
`Release()` of `v` followed by the `Allocate()` of `r`;
otherwise its only strategy call is the `Allocate()` of `r` and `unused` is
unchanged. -/
theorem get_evicts_when_saturated (max : Nat) (hmax : max < uintSize) (ops : List Op)
    (p : Pool) (hrun : run (newPool max) ops = some p) (r : ResId)
    (ha : (p.resources r).allocated = false) (hg : (p.resources r).semaphore = 0)
    (hs : p.semaphore < p.max) (c : Bool) (pick : Nat) (re ae : Option Error) :
    (p.numUsed + p.numUnused + p.numReleasing ≥ p.max →
      (get p r c pick re ae).outcome = Outcome.returned ae ∧
      ∃ v, resourceToRelease p pick = some v ∧ v ∈ p.unused ∧ v ≠ r ∧
        (get p r c pick re ae).pool.unused = mapDelete v p.unused ∧
        v ∉ (get p r c pick re ae).pool.unused ∧
        (get p r c pick re ae).pool.unused.length + 1 = p.unused.length ∧
        ((get p r c pick re ae).pool.resources v).allocated = false ∧
        calls (get p r c pick re ae).trace = [Call.release v re, Call.allocate r ae]) ∧
    (p.numUsed + p.numUnused + p.numReleasing < p.max →
      (get p r c pick re ae).outcome = Outcome.returned ae ∧
      (get p r c pick re ae).pool.unused = p.unused ∧
      calls (get p r c pick re ae).trace = [Call.allocate r ae]) := by
  obtain ⟨hi, -⟩ := inv_reachable hmax hrun
  have hm := mid_acquire hi hg hs
  have ha2 : ((acquire p r).resources r).allocated = false := by
    simp [acquire, Pool.setRes, ha]
  rw [hi.releasing, hi.numUnused, get_eq_getLocked hg hs]
  constructor
  · intro hfull
    obtain ⟨v, hv, hvu, hvr, -, heq⟩ :=
      getLocked_evict hm ha2 (by simpa [acquire, Pool.setRes] using hfull) pick re ae
    have hm2 := mid_evicted hm hvu hvr re
    have hvu2 : v ∈ p.unused := hvu
    have hlen := length_mapDelete_of_mem hi.nodup hvu2
    have hnot : v ∉ mapDelete v p.unused := fun hx => (mem_mapDelete.mp hx).2 rfl
    rw [heq]
    cases ae with
    | none =>
      rw [getAllocate_ok hm2]
      refine ⟨rfl, v, hv, hvu2, hvr, rfl, hnot, hlen, ?_, ?_⟩
      · simp [allocatedSt, evicted, Function.update_noteq hvr]
      · simp [calls_append, calls]
    | some e =>
      rw [getAllocate_fail hm2]
      refine ⟨rfl, v, hv, hvu2, hvr, rfl, hnot, hlen, ?_, ?_⟩
      · simp [failedSt, evicted, Function.update_noteq hvr]
      · simp [calls_append, calls]
  · intro hroom
    rw [getLocked_fresh hm ha2 (by simpa [acquire, Pool.setRes] using hroom)]
    cases ae with
    | none =>
      rw [getAllocate_ok hm]
      exact ⟨rfl, rfl, by simp [calls_append, calls]⟩
    | some e =>
      rw [getAllocate_fail hm]
      exact ⟨rfl, rfl, by simp [calls_append, calls]⟩

/-- Instance of C7, the saturation scenario: capacity 1, `Get(0)`, `Put(0)`, then
`Get(1)` calls the `Release()` of resource 0 once and then the `Allocate()` of
resource 1. -/
theorem get_evicts_when_saturated_witness :
    ∃ p, run (newPool 1) [Op.Get 0 false 0 none none, Op.Put 0 none] = some p ∧
      (1 < uintSize ∧ (p.resources 1).allocated = false ∧ (p.resources 1).semaphore = 0 ∧
        p.semaphore < p.max ∧ p.numUsed + p.numUnused + p.numReleasing ≥ p.max) ∧
      ((get p 1 false 0 none none).outcome = Outcome.returned none ∧
        ∃ v, resourceToRelease p 0 = some v ∧ v ∈ p.unused ∧ v ≠ 1 ∧
          (get p 1 false 0 none none).pool.unused = mapDelete v p.unused ∧
          v ∉ (get p 1 false 0 none none).pool.unused ∧
          (get p 1 false 0 none none).pool.unused.length + 1 = p.unused.length ∧
          ((get p 1 false 0 none none).pool.resources v).allocated = false ∧
          calls (get p 1 false 0 none none).trace
            = [Call.release v none, Call.allocate 1 none]) ∧
      calls (get p 1 false 0 none none).trace = [Call.release 0 none, Call.allocate 1 none] :=
  ⟨_, rfl, ⟨by decide, by decide, by decide, by decide, by decide⟩,
    (get_evicts_when_saturated 1 (by decide) [Op.Get 0 false 0 none none, Op.Put 0 none] _ rfl
      1 (by decide) (by decide) (by decide) false 0 none none).1 (by decide),
    by decide⟩

/-- C8 (as amended): in every state reached from `newPool` the number of slots
held in the pool semaphore equals `numUsed` (a slot is held while a resource is
checked out and is given back by `Put` and by the release of a checked-out
resource), and `numReleasing` is zero. -/
theorem slots_eq_numUsed (max : Nat) (hmax : max < uintSize) (ops : List Op) (p : Pool)
    (hrun : run (newPool max) ops = some p) :
    p.semaphore = p.numUsed ∧ p.numReleasing = 0 ∧ p.numUnused = p.unused.length := by
  obtain ⟨hi, -⟩ := inv_reachable hmax hrun
  exact ⟨hi.tickets, hi.releasing, hi.numUnused⟩

/-- Instance of C8 (as amended): capacity 2, resource 0 idle and resource 1
checked out. -/
theorem slots_eq_numUsed_witness :
    ∃ p, run (newPool 2)
        [Op.Get 0 false 0 none none, Op.Put 0 none, Op.Get 1 false 0 none none] = some p ∧
      1 < uintSize ∧
      (p.semaphore = p.numUsed ∧ p.numReleasing = 0 ∧ p.numUnused = p.unused.length) ∧
      p.semaphore = 1 ∧ p.numUnused = 1 :=
  ⟨_, rfl, by decide,
    slots_eq_numUsed 2 (by decide)
      [Op.Get 0 false 0 none none, Op.Put 0 none, Op.Get 1 false 0 none none] _ rfl,
    by decide, by decide⟩

/-- Counterexample to C8 as stated: capacity 1; after `Get(0)` and `Put(0)` no
slot of the pool semaphore is held although resource 0 is allocated and idle, so
the number of held slots (0) differs from
`numUsed + numUnused + numReleasing` (1). -/
theorem slots_ne_load :
    ∃ p, run (newPool 1) [Op.Get 0 false 0 none none, Op.Put 0 none] = some p ∧
      (p.resources 0).allocated = true ∧ 0 ∈ p.unused ∧
      p.semaphore = 0 ∧ p.numUsed + p.numUnused + p.numReleasing = 1 :=
  ⟨_, rfl, by decide, by decide, by decide, by decide⟩

theorem liveAfter_append (r : ResId) (b : Bool) (l1 l2 : List Call) :
    liveAfter r b (l1 ++ l2) = liveAfter r (liveAfter r b l1) l2 := by
  induction l1 generalizing b with
  | nil => rfl
  | cons c t ih => cases c <;> simp [liveAfter, ih]

theorem alternates_append (r : ResId) (b : Bool) (l1 l2 : List Call) :
    alternates r b (l1 ++ l2) = (alternates r b l1 && alternates r (liveAfter r b l1) l2) := by
  induction l1 generalizing b with
  | nil => simp [alternates, liveAfter]
  | cons c t ih =>
    cases c with
    | allocate x e =>
      by_cases hx : x = r
      · simp [alternates, liveAfter, hx, ih, Bool.and_assoc]
      · simp [alternates, liveAfter, hx, ih]
    | release x e => simp [alternates, liveAfter, ih]

theorem release_between (r : ResId) (mid post : List Call) (e2 : Option Error)
    (h : alternates r true (mid ++ Call.allocate r e2 :: post) = true) :
    ∃ e, Call.release r e ∈ mid := by
  induction mid with
  | nil => simp [alternates] at h
  | cons c t ih =>
    cases c with
    | allocate x e =>
      by_cases hx : x = r
      · simp [alternates, hx] at h
      · simp only [List.cons_append, alternates, hx, if_false] at h
        obtain ⟨e1, h1⟩ := ih h
        exact ⟨e1, List.mem_cons_of_mem _ h1⟩
    | release x e =>
      by_cases hx : x = r
      · subst hx
        exact ⟨e, List.mem_cons_self _ _⟩
      · simp only [List.cons_append, alternates, hx, if_false] at h
        obtain ⟨e1, h1⟩ := ih h
        exact ⟨e1, List.mem_cons_of_mem _ h1⟩

theorem Shape.alternates_live {p : Pool} {res : Result} (h : Shape p res) (r : ResId) :
    alternates r (p.resources r).allocated (calls res.trace) = true ∧
    liveAfter r (p.resources r).allocated (calls res.trace)
      = (res.pool.resources r).allocated := by
  rcases h with ⟨h1, h2⟩ | ⟨x, e, h1, h2⟩ | ⟨x, ae, h0, h1, h2⟩ | ⟨v, x, re, ae, hvx, h0, h1, h2⟩
  · rw [h1, h2]; exact ⟨rfl, rfl⟩
  · rw [h1, h2]
    by_cases hx : r = x
    · subst hx; simp [Resourcepool.alternates, liveAfter]
    · have hx2 : x ≠ r := fun h => hx h.symm
      simp [Resourcepool.alternates, liveAfter, hx, hx2]
  · rw [h1, h2]
    by_cases hx : r = x
    · subst hx; simp [Resourcepool.alternates, liveAfter, h0]
    · have hx2 : x ≠ r := fun h => hx h.symm
      simp [Resourcepool.alternates, liveAfter, hx, hx2]
  · rw [h1, h2]
    by_cases hx : r = x
    · subst hx
      simp [Resourcepool.alternates, liveAfter, h0, hvx]
    · have hx2 : x ≠ r := fun h => hx h.symm
      by_cases hv : r = v
      · subst hv; simp [Resourcepool.alternates, liveAfter, hx, hx2]
      · have hv2 : v ≠ r := fun h => hv h.symm
        simp [Resourcepool.alternates, liveAfter, hx, hx2, hv, hv2]

theorem shape_release {p : Pool} (h : Inv p) (b : Bool) (r : ResId) (e : Option Error) :
    Shape p (release b p r e) := by
  by_cases hb : (p.resources r).allocated = true
  · rw [release_allocated h hb]
    refine Or.inr (Or.inl ⟨r, e, by simp [calls], ?_⟩)
    intro y
    by_cases hy : y = r
    · subst hy; simp [releasedSt]
    · simp [releasedSt, Function.update_noteq hy, hy]
  · have hb : (p.resources r).allocated = false := by simpa using hb
    rw [release_not_allocated (h.allocating r) hb]
    exact Or.inl ⟨by simp [calls], fun _ => rfl⟩

theorem shape_put {p : Pool} (h : Inv p) (r : ResId) (e : Option Error) :
    Shape p (put p r e) := by
  by_cases hb : (p.resources r).allocated = true
  swap
  · unfold put
    simp only [hb, Bool.not_false, if_true]
    exact Or.inl ⟨by simp [calls], fun _ => rfl⟩
  by_cases h1 : (p.resources r).semaphore < 1
  · unfold put
    simp only [hb, h1, Bool.not_true, Bool.false_eq_true, if_false, if_true]
    exact Or.inl ⟨by simp [calls], fun _ => rfl⟩
  have hg : (p.resources r).semaphore = 1 := by have := h.gate r; omega
  by_cases hrp : (p.resources r).releaseOnPut = true
  · have hs := shape_release h true r e
    unfold put
    simp only [hb, h1, hrp, Bool.not_true, Bool.false_eq_true, if_false, if_true]
    unfold Shape at hs ⊢
    rw [put_release_pool, put_release_trace]
    exact hs
  · have hrp : (p.resources r).releaseOnPut = false := by simpa using hrp
    rw [put_recycle h hg hrp]
    refine Or.inl ⟨by simp [calls], ?_⟩
    intro y
    by_cases hy : y = r
    · subst hy; simp [recycled]
    · simp [recycled, Function.update_noteq hy]

theorem shape_scheduleRelease {p : Pool} (h : Inv p) (r : ResId) (e : Option Error) :
    Shape p (scheduleRelease p r e) := by
  unfold scheduleRelease
  split
  · refine Or.inl ⟨by simp [calls], ?_⟩
    intro y
    by_cases hy : y = r
    · subst hy; simp [Pool.setRes]
    · simp [Pool.setRes, Function.update_noteq hy]
  · exact shape_release h true r e

theorem shape_get {p : Pool} (h : Inv p) (r : ResId) (c : Bool) (pick : Nat)
    (re ae : Option Error) : Shape p (get p r c pick re ae) := by
  by_cases hg : 1 ≤ (p.resources r).semaphore
  · rw [get_gate_held hg]
    exact Or.inl ⟨by simp [calls], fun _ => rfl⟩
  have hg : (p.resources r).semaphore = 0 := by omega
  by_cases hs : p.semaphore < p.max
  swap
  · cases c with
    | true =>
      rw [get_no_slot_cancel hg hs]
      exact Or.inl ⟨by simp [calls], fun _ => rfl⟩
    | false =>
      rw [get_no_slot_block hg hs]
      refine Or.inl ⟨by simp [calls], ?_⟩
      intro y
      by_cases hy : y = r
      · subst hy; simp [Pool.setRes]
      · simp [Pool.setRes, Function.update_noteq hy]
  have hm := mid_acquire h hg hs
  have hacq : ∀ y, ((acquire p r).resources y).allocated = (p.resources y).allocated := by
    intro y
    by_cases hy : y = r
    · subst hy; simp [acquire, Pool.setRes]
    · simp [acquire, Pool.setRes, Function.update_noteq hy]
  rw [get_eq_getLocked hg hs]
  by_cases ha : ((acquire p r).resources r).allocated = true
  · rw [getLocked_reuse hm ha]
    exact Or.inl ⟨by simp [calls], hacq⟩
  have ha : ((acquire p r).resources r).allocated = false := by simpa using ha
  have hpa : (p.resources r).allocated = false := by rw [← hacq]; exact ha
  by_cases hroom : (acquire p r).numUsed + (acquire p r).unused.length < (acquire p r).max
  · rw [getLocked_fresh hm ha hroom]
    refine Or.inr (Or.inr (Or.inl ⟨r, ae, hpa, ?_⟩))
    cases ae with
    | none =>
      rw [getAllocate_ok hm]
      refine ⟨by simp [calls_append, calls], ?_⟩
      intro y
      by_cases hy : y = r
      · subst hy; simp [allocatedSt]
      · simp [allocatedSt, Function.update_noteq hy, hy, hacq]
    | some e =>
      rw [getAllocate_fail hm]
      refine ⟨by simp [calls_append, calls], ?_⟩
      intro y
      by_cases hy : y = r
      · subst hy; simp [failedSt]
      · simp [failedSt, Function.update_noteq hy, hy, hacq]
  · obtain ⟨v, -, hv, hvr, -, heq⟩ := getLocked_evict hm ha (by omega) pick re ae
    rw [heq]
    have hm2 := mid_evicted hm hv hvr re
    refine Or.inr (Or.inr (Or.inr ⟨v, r, re, ae, hvr, hpa, ?_⟩))
    cases ae with
    | none =>
      rw [getAllocate_ok hm2]
      refine ⟨by simp [calls_append, calls], ?_⟩
      intro y
      by_cases hy : y = r
      · subst hy; simp [allocatedSt]
      · by_cases hyv : y = v
        · subst hyv; simp [allocatedSt, evicted, Function.update_noteq hy, hy]
        · simp [allocatedSt, evicted, Function.update_noteq hy, Function.update_noteq hyv, hy,
            hyv, hacq]
    | some e =>
      rw [getAllocate_fail hm2]
      refine ⟨by simp [calls_append, calls], ?_⟩
      intro y
      by_cases hy : y = r
      · subst hy; simp [failedSt]
      · by_cases hyv : y = v
        · subst hyv; simp [failedSt, evicted, Function.update_noteq hy, hy]
        · simp [failedSt, evicted, Function.update_noteq hy, Function.update_noteq hyv, hy,
            hyv, hacq]

theorem shape_step {p : Pool} (h : Inv p) (op : Op) : Shape p (step p op) := by
  cases op with
  | Get r c pick re ae => exact shape_get h r c pick re ae
  | Put r e => exact shape_put h r e
  | Release r e => exact shape_release h false r e
  | ScheduleRelease r e => exact shape_scheduleRelease h r e

theorem alternates_runTrace {p : Pool} (h : Inv p) (ops : List Op) (r : ResId) :
    alternates r (p.resources r).allocated (calls (runTrace p ops)) = true := by
  induction ops generalizing p with
  | nil => rfl
  | cons op ops ih =>
    obtain ⟨h1, h2⟩ := (shape_step h op).alternates_live r
    unfold runTrace
    split
    · rename_i e he
      have hi := inv_step h op (by rw [he]; simp)
      rw [calls_append, alternates_append, h1, h2, ih hi]
      rfl
    · exact h1

/-- C9 (as amended): in the strategy calls that the pool makes during any
sequence of calls on a pool built by `newPool`, an `Allocate()` of a resource
that returned nil is never followed by another `Allocate()` of the same
resource without a `Release()` of that resource between them.  (After an
`Allocate()` that returned an error the next call on that strategy may be
another `Allocate()`.) -/
theorem release_between_allocates (max : Nat) (hmax : max < uintSize) (ops : List Op)
    (r : ResId) (pre mid post : List Call) (e2 : Option Error)
    (h : calls (runTrace (newPool max) ops) =
      pre ++ (Call.allocate r none :: (mid ++ (Call.allocate r e2 :: post)))) :
    ∃ e, Call.release r e ∈ mid := by
  have ha := alternates_runTrace (inv_newPool hmax) ops r
  rw [h, alternates_append] at ha
  have h2 := (Bool.and_eq_true _ _).mp ha |>.2
  simp only [alternates, if_true, Option.isNone_none, Bool.and_eq_true] at h2
  exact release_between r mid post e2 h2.2

/-- Instance of C9 (as amended): capacity 1; `Get(0)`, `Put(0)`, `Get(1)` (which
evicts resource 0), `Put(1)`, `Get(0)` (which evicts resource 1). -/
theorem release_between_allocates_witness :
    1 < uintSize ∧
    calls (runTrace (newPool 1)
      [Op.Get 0 false 0 none none, Op.Put 0 none, Op.Get 1 false 0 none none,
       Op.Put 1 none, Op.Get 0 false 0 none none]) =
      [] ++ (Call.allocate 0 none ::
        ([Call.release 0 none, Call.allocate 1 none, Call.release 1 none] ++
          (Call.allocate 0 none :: []))) ∧
    ∃ e, Call.release 0 e ∈ [Call.release 0 none, Call.allocate 1 none, Call.release 1 none] :=
  ⟨by decide, by decide,
    release_between_allocates 1 (by decide)
      [Op.Get 0 false 0 none none, Op.Put 0 none, Op.Get 1 false 0 none none,
       Op.Put 1 none, Op.Get 0 false 0 none none] 0 []
      [Call.release 0 none, Call.allocate 1 none, Call.release 1 none] [] none (by decide)⟩

/-- Counterexample to C9 as stated: capacity 1; a `Get(0)` whose `Allocate()`
fails followed by another `Get(0)`: the strategy of resource 0 sees two
`Allocate()` calls and no `Release()` between them. -/
theorem two_allocates_without_release :
    calls (runTrace (newPool 1)
      [Op.Get 0 false 0 none (some (Error.strategy 1)), Op.Get 0 false 0 none none]) =
      [Call.allocate 0 (some (Error.strategy 1)), Call.allocate 0 none] := by
  decide

theorem get_release_call {p : Pool} (h : Inv p) {r : ResId} {c : Bool} {pick : Nat}
    {re ae : Option Error} {v : ResId} {e : Option Error}
    (hv : Call.release v e ∈ calls (get p r c pick re ae).trace) :
    resourceToRelease p pick = some v ∧ v ∈ p.unused ∧ v ≠ r := by
  by_cases hg : 1 ≤ (p.resources r).semaphore
  · rw [get_gate_held hg] at hv
    simp [calls] at hv
  have hg : (p.resources r).semaphore = 0 := by omega
  by_cases hs : p.semaphore < p.max
  swap
  · cases c with
    | true => rw [get_no_slot_cancel hg hs] at hv; simp [calls] at hv
    | false => rw [get_no_slot_block hg hs] at hv; simp [calls] at hv
  have hm := mid_acquire h hg hs
  rw [get_eq_getLocked hg hs] at hv
  by_cases ha : ((acquire p r).resources r).allocated = true
  · rw [getLocked_reuse hm ha] at hv
    simp [calls] at hv
  have ha : ((acquire p r).resources r).allocated = false := by simpa using ha
  by_cases hroom : (acquire p r).numUsed + (acquire p r).unused.length < (acquire p r).max
  · rw [getLocked_fresh hm ha hroom] at hv
    cases ae with
    | none => rw [getAllocate_ok hm] at hv; simp [calls_append, calls] at hv
    | some e => rw [getAllocate_fail hm] at hv; simp [calls_append, calls] at hv
  · obtain ⟨w, hw, hwu, hwr, -, heq⟩ := getLocked_evict hm ha (by omega) pick re ae
    rw [heq] at hv
    have hm2 := mid_evicted hm hwu hwr re
    have hvw : v = w := by
      cases ae with
      | none =>
        rw [getAllocate_ok hm2] at hv
        simp [calls_append, calls] at hv
        exact hv.1
      | some e =>
        rw [getAllocate_fail hm2] at hv
        simp [calls_append, calls] at hv
        exact hv.1
    subst hvw
    exact ⟨hw, hwu, hwr⟩

/-- C10: in every state reached from `newPool`, every member of `unused` is
allocated, not allocating and has a free checkout gate, `unused` has no repeated
member and `numUnused` is its size; and whenever a `Get` on a resource `r`
calls the `Release()` of a resource `v` (an eviction), `v` is the member of
`unused` that the map iteration yields, it is not checked out, not allocating,
and it is not `r`. -/
theorem unused_members_idle (max : Nat) (hmax : max < uintSize) (ops : List Op) (p : Pool)
    (hrun : run (newPool max) ops = some p) :
    (∀ v ∈ p.unused, (p.resources v).allocated = true ∧ (p.resources v).allocating = false ∧
      (p.resources v).semaphore = 0) ∧
    p.unused.Nodup ∧ p.numUnused = p.unused.length ∧
    ∀ (r : ResId) (c : Bool) (pick : Nat) (re ae : Option Error) (v : ResId)
      (e : Option Error), Call.release v e ∈ calls (get p r c pick re ae).trace →
      resourceToRelease p pick = some v ∧ v ∈ p.unused ∧
      (p.resources v).semaphore = 0 ∧ (p.resources v).allocating = false ∧ v ≠ r := by
  obtain ⟨hi, -⟩ := inv_reachable hmax hrun
  refine ⟨?_, hi.nodup, hi.numUnused, ?_⟩
  · intro v hv
    exact ⟨(hi.alloc v).mpr (Or.inr hv), hi.allocating v, hi.idle v hv⟩
  · intro r c pick re ae v e hv
    obtain ⟨h1, h2, h3⟩ := get_release_call hi hv
    exact ⟨h1, h2, hi.idle v h2, hi.allocating v, h3⟩

/-- Instance of C10: capacity 1, resource 0 idle; `Get(1)` evicts resource 0. -/
theorem unused_members_idle_witness :
    ∃ p, run (newPool 1) [Op.Get 0 false 0 none none, Op.Put 0 none] = some p ∧
      1 < uintSize ∧ p.unused = [0] ∧
      Call.release 0 none ∈ calls (get p 1 false 0 none none).trace ∧
      ((∀ v ∈ p.unused, (p.resources v).allocated = true ∧
          (p.resources v).allocating = false ∧ (p.resources v).semaphore = 0) ∧
        p.unused.Nodup ∧ p.numUnused = p.unused.length ∧
        ∀ (r : ResId) (c : Bool) (pick : Nat) (re ae : Option Error) (v : ResId)
          (e : Option Error), Call.release v e ∈ calls (get p r c pick re ae).trace →
          resourceToRelease p pick = some v ∧ v ∈ p.unused ∧
          (p.resources v).semaphore = 0 ∧ (p.resources v).allocating = false ∧ v ≠ r) :=
  ⟨_, rfl, by decide, by decide, by decide,
    unused_members_idle 1 (by decide) [Op.Get 0 false 0 none none, Op.Put 0 none] _ rfl⟩

theorem scheduleRelease_held {p : Pool} {r : ResId} (hg : (p.resources r).semaphore = 1)
    (e : Option Error) :
    scheduleRelease p r e =
      { pool := p.setRes r { p.resources r with releaseOnPut := true }
        outcome := Outcome.returned none
        trace := [Event.unlock (p.setRes r { p.resources r with releaseOnPut := true })] } := by
  unfold scheduleRelease
  simp [hg]

theorem put_released {p : Pool} (h : Inv p) {r : ResId}
    (hg : (p.resources r).semaphore = 1) (hrp : (p.resources r).releaseOnPut = true)
    (e : Option Error) :
    put p r e =
      { pool := releasedSt p r true 0 (p.semaphore - 1) e
        outcome := Outcome.returned none
        trace := [Event.unlock (releasedSt p r true 1 p.semaphore (p.resources r).releaseError),
                  Event.release r e,
                  Event.unlock (releasedSt p r true 0 p.semaphore e)] } := by
  have ha : (p.resources r).allocated = true := (h.alloc r).mpr (Or.inl hg)
  unfold put
  simp only [ha, hg, hrp, Bool.not_true, Bool.false_eq_true, if_false, if_true,
    Nat.lt_irrefl]
  rw [release_allocated h ha]
  simp [hg]

/-- C11: in every state reached from `newPool`, for a resource that is checked
out (it is then allocated), `ScheduleRelease` returns nil, makes no strategy call and
changes nothing but the `releaseOnPut` flag of the resource; after any calls
that are neither `Put`, `Release` nor `ScheduleRelease` on that resource, the
next `Put` on it returns, calls the strategy's `Release()` exactly once, and
leaves the resource not allocated, not in `unused`, with a free checkout gate,
`numUsed` one less and one slot of the pool semaphore given back. -/
theorem scheduleRelease_then_put (max : Nat) (hmax : max < uintSize) (ops : List Op)
    (p : Pool) (hrun : run (newPool max) ops = some p) (r : ResId)
    (hg : (p.resources r).semaphore = 1) (e0 : Option Error) (mid : List Op)
    (hmid : ∀ op ∈ mid, op.isGet = true ∨ op.resource ≠ r)
    (q : Pool) (hq : run (scheduleRelease p r e0).pool mid = some q) (e : Option Error) :
    (p.resources r).allocated = true ∧
    ((scheduleRelease p r e0).outcome = Outcome.returned none ∧
      calls (scheduleRelease p r e0).trace = [] ∧
      (scheduleRelease p r e0).pool = p.setRes r { p.resources r with releaseOnPut := true }) ∧
    ((put q r e).outcome = Outcome.returned none ∧
      calls (put q r e).trace = [Call.release r e] ∧
      ((put q r e).pool.resources r).allocated = false ∧
      r ∉ (put q r e).pool.unused ∧
      ((put q r e).pool.resources r).semaphore = 0 ∧
      (put q r e).pool.numUsed + 1 = q.numUsed ∧
      (put q r e).pool.semaphore + 1 = q.semaphore) := by
  obtain ⟨hi, -⟩ := inv_reachable hmax hrun
  have hi1 := inv_scheduleRelease hi r e0
  rw [scheduleRelease_held hg] at hi1 hq ⊢
  refine ⟨(hi.alloc r).mpr (Or.inl hg), ⟨rfl, by simp [calls], rfl⟩, ?_⟩
  have h1 : ((p.setRes r { p.resources r with releaseOnPut := true }).resources r).semaphore
      = 1 := by simp [Pool.setRes, hg]
  have hiq : Inv q := (inv_run hi1 hq).1
  have hfr := frame_run hi1 h1 hmid hq
  have hq1 : (q.resources r).semaphore = 1 := by rw [hfr]; exact h1
  have hq2 : (q.resources r).releaseOnPut = true := by rw [hfr]; simp [Pool.setRes]
  have hpos := hiq.numUsed_pos hq1
  have htk := hiq.tickets
  rw [put_released hiq hq1 hq2]
  refine ⟨rfl, by simp [calls], by simp [releasedSt], ?_, by simp [releasedSt], ?_, ?_⟩
  · intro hm
    exact (mem_mapDelete.mp hm).2 rfl
  · show (if true = true then q.numUsed - 1 else q.numUsed) + 1 = q.numUsed
    simp only [if_true]
    omega
  · show q.semaphore - 1 + 1 = q.semaphore
    omega

/-- Instance of C11: capacity 2, resource 0 checked out; `ScheduleRelease(0)`, a
`Get(1)`, then `Put(0)`. -/
theorem scheduleRelease_then_put_witness :
    ∃ p, run (newPool 2) [Op.Get 0 false 0 none none] = some p ∧
    ∃ q, run (scheduleRelease p 0 none).pool [Op.Get 1 false 0 none none] = some q ∧
      (1 < uintSize ∧ (p.resources 0).semaphore = 1 ∧
        (∀ op ∈ [Op.Get 1 false 0 none none], op.isGet = true ∨ op.resource ≠ 0)) ∧
      ((p.resources 0).allocated = true ∧
       ((scheduleRelease p 0 none).outcome = Outcome.returned none ∧
        calls (scheduleRelease p 0 none).trace = [] ∧
        (scheduleRelease p 0 none).pool
          = p.setRes 0 { p.resources 0 with releaseOnPut := true }) ∧
       ((put q 0 none).outcome = Outcome.returned none ∧
        calls (put q 0 none).trace = [Call.release 0 none] ∧
        ((put q 0 none).pool.resources 0).allocated = false ∧
        0 ∉ (put q 0 none).pool.unused ∧
        ((put q 0 none).pool.resources 0).semaphore = 0 ∧
        (put q 0 none).pool.numUsed + 1 = q.numUsed ∧
        (put q 0 none).pool.semaphore + 1 = q.semaphore)) :=
  ⟨_, rfl, _, rfl, ⟨by decide, by decide, by decide⟩,
    scheduleRelease_then_put 2 (by decide) [Op.Get 0 false 0 none none] _ rfl 0
      (by decide) none [Op.Get 1 false 0 none none] (by decide) _ rfl none⟩

end Resourcepool

namespace Dhcpd

theorem foldl_append_filter (subnetId : String) (l acc : List Subnet) :
    l.foldl
      (fun subnets subnet => if subnet.Id != subnetId then subnets ++ [subnet] else subnets)
      acc = acc ++ l.filter (fun subnet => subnet.Id != subnetId) := by
  induction l generalizing acc with
  | nil => simp
  | cons a t ih =>
    simp only [List.foldl_cons, List.filter_cons]
    split
    · rw [ih]; simp
    · rw [ih]

/-- On a server with at least one subnet `removeSubnet` returns, and the new
list is the old one without the subnets of the given id, in the old order. -/
theorem removeSubnet_of_ne_nil (s : DhcpServer) (subnetId : String) (h : s.subnets ≠ []) :
    removeSubnet s subnetId =
      Completion.returned
        { s with subnets := s.subnets.filter (fun subnet => subnet.Id != subnetId) } := by
  have hlen : 0 < s.subnets.length := List.length_pos.mpr h
  unfold removeSubnet
  rw [if_neg (by omega), foldl_append_filter]
  simp

/-- C12, the code at the failing input: on a server without subnets (a new
server, or a server whose only subnet was removed) `removeSubnet` panics in
`make`, whose capacity argument `len(s.subnets)-1` is -1. -/
theorem removeSubnet_empty_panics :
    removeSubnet newServer "net10" = Completion.panicked "makeslice: cap out of range" ∧
    (∃ s, removeSubnet (addSubnet newServer net10) "net10" = Completion.returned s ∧
      s.subnets = [] ∧
      removeSubnet s "net10" = Completion.panicked "makeslice: cap out of range") :=
  ⟨rfl, _, rfl, by decide, rfl⟩

/-- C13, the code at the failing input: after `addSubnet` of 10.0.0.0/24 and two
`addLease` calls for the MAC address "aa", first with 10.0.0.1 and then with
10.0.0.2 (both return nil), `ipAddrToMacAddr` still maps 10.0.0.1 to "aa" while
the lease of "aa" has the address 10.0.0.2, so the tables do not agree; and
`removeLease(10.0.0.1)` removes that lease of 10.0.0.2. -/
theorem stale_reverse_entry :
    (addLease ipv4 (addSubnet newServer net10) ⟨[10, 0, 0, 1], "aa"⟩ false "").2 = none ∧
    (addLease ipv4
      (addLease ipv4 (addSubnet newServer net10) ⟨[10, 0, 0, 1], "aa"⟩ false "").1
      ⟨[10, 0, 0, 2], "aa"⟩ false "").2 = none ∧
    (performAll ipv4 newServer
      [Action.addSubnet net10, Action.addLease ⟨[10, 0, 0, 1], "aa"⟩ false "",
       Action.addLease ⟨[10, 0, 0, 2], "aa"⟩ false ""]).ipAddrToMacAddr "10.0.0.1"
      = some "aa" ∧
    (performAll ipv4 newServer
      [Action.addSubnet net10, Action.addLease ⟨[10, 0, 0, 1], "aa"⟩ false "",
       Action.addLease ⟨[10, 0, 0, 2], "aa"⟩ false ""]).leases "aa"
      = some { address := ⟨[10, 0, 0, 2], "aa"⟩, Hostname := "", doNetboot := false } ∧
    ¬ TablesAgree ipv4 (performAll ipv4 newServer
      [Action.addSubnet net10, Action.addLease ⟨[10, 0, 0, 1], "aa"⟩ false "",
       Action.addLease ⟨[10, 0, 0, 2], "aa"⟩ false ""]) ∧
    (removeLease ipv4 (performAll ipv4 newServer
      [Action.addSubnet net10, Action.addLease ⟨[10, 0, 0, 1], "aa"⟩ false "",
       Action.addLease ⟨[10, 0, 0, 2], "aa"⟩ false ""]) [10, 0, 0, 1]).leases "aa" = none := by
  refine ⟨by decide, by decide, by decide, by decide, ?_, by decide⟩
  intro h
  obtain ⟨lease, h1, h2⟩ := h "10.0.0.1" "aa" (by decide)
  have h3 : (performAll ipv4 newServer
      [Action.addSubnet net10, Action.addLease ⟨[10, 0, 0, 1], "aa"⟩ false "",
       Action.addLease ⟨[10, 0, 0, 2], "aa"⟩ false ""]).leases "aa"
      = some { address := ⟨[10, 0, 0, 2], "aa"⟩, Hostname := "", doNetboot := false } := by
    decide
  rw [h3] at h1
  cases h1
  exact absurd h2 (by decide)

end Dhcpd
